import Mathlib

/-!
# Bifrost `array.cpp`: strided array allocation, copy and fill

A shallow embedding of `src/array.cpp` (`bfArrayMalloc`, `bfArrayFree`,
`bfArrayCopy`, `bfArrayMemset`) and proofs about its layout reasoning.

Conventions of the embedding

* C `int` and `long` values are mathematical integers (`Int`).  Signed overflow
  is undefined behaviour in C, so the model speaks about runs without overflow.
* The fixed-size members `shape[]` and `strides[]` of `BFarray` are lists whose
  length is the capacity of the member.  Reading or writing outside the list
  is undefined behaviour in C; the model then yields `none`.
* A possibly-null `BFarray*` is an `Option BFarray`.
* The space-qualified primitives (`bfMalloc`, `bfFree`, `bfMemcpy`,
  `bfMemcpy2D`, `bfMemset`, `bfMemset2D`) are external.  Every API function of
  `array.cpp` invokes at most one of them and returns its status; the model
  takes their answers from an `Externals` record and logs each invocation as a
  `Call`.
-/

namespace Bifrost

/-! ## Data model -/

/-- Status codes (`BFstatus`).  The enumeration is declared outside
`array.cpp`; the constructors are the codes that file names, plus success and
`BF_STATUS_OTHER` for any further code an external primitive may hand back. -/
inductive BFstatus where
  | BF_STATUS_SUCCESS
  | BF_STATUS_INVALID_POINTER
  | BF_STATUS_INVALID_SHAPE
  | BF_STATUS_INVALID_DTYPE
  | BF_STATUS_INVALID_ARGUMENT
  | BF_STATUS_UNSUPPORTED
  | BF_STATUS_OTHER (code : Nat)
  deriving DecidableEq, Repr

/-- The array descriptor (`BFarray`): the members `array.cpp` reads and
writes.  `data` is an address inside `space`; `dtype` and `space` are tags. -/
structure BFarray where
  data : Nat
  space : Nat
  dtype : Nat
  ndim : Int
  shape : List Int
  strides : List Int
  deriving DecidableEq, Repr

/-- One invocation of an external primitive, with the arguments passed. -/
inductive Call where
  | bfMalloc (size : Int) (space : Nat)
  | bfFree (data : Nat) (space : Nat)
  | bfMemcpy (dst : Nat) (dst_space : Nat) (src : Nat) (src_space : Nat)
      (size_bytes : Int)
  | bfMemcpy2D (dst : Nat) (dst_stride : Int) (dst_space : Nat)
      (src : Nat) (src_stride : Int) (src_space : Nat)
      (width_bytes : Int) (height : Int)
  | bfMemset (ptr : Nat) (space : Nat) (value : Int) (size_bytes : Int)
  | bfMemset2D (ptr : Nat) (stride : Int) (space : Nat) (value : Int)
      (width_bytes : Int) (height : Int)
  deriving DecidableEq, Repr

/-- What the environment answers.  `bfMalloc old size space` gives the status
and the address left in `*ptr` (whose previous content was `old`); the other
primitives give a status.  `element_size` is the dtype-size lookup. -/
structure Externals where
  element_size : Nat → Int
  bfMalloc : Nat → Int → Nat → BFstatus × Nat
  bfFree : Nat → Nat → BFstatus
  bfMemcpy : Nat → Nat → Nat → Nat → Int → BFstatus
  bfMemcpy2D : Nat → Int → Nat → Nat → Int → Nat → Int → Int → BFstatus
  bfMemset : Nat → Nat → Int → Int → BFstatus
  bfMemset2D : Nat → Int → Nat → Int → Int → Int → BFstatus

/-- Modelled from the spec: the dtype-size lookup `get_dtype_nbyte` (declared
in `utils.hpp`, not part of `array.cpp`) is the spec's external
`element_size(dtype)`. -/
def get_dtype_nbyte (E : Externals) (dtype : Nat) : Int :=
  E.element_size dtype

/-- Modelled from the spec: the macro `BF_DTYPE_NBYTE` (declared in
`bifrost/array.h`, not part of `array.cpp`) is the spec's external
`element_size(dtype)`. -/
def BF_DTYPE_NBYTE (E : Externals) (dtype : Nat) : Int :=
  E.element_size dtype

/-- Status returned by an API call together with the external primitives it
invoked, in order. -/
structure Outcome where
  status : BFstatus
  calls : List Call
  deriving DecidableEq, Repr

/-- Result of `bfArrayMalloc`: the outcome and the descriptor as the call
leaves it (`none` when the pointer was null). -/
structure MallocOutcome where
  status : BFstatus
  calls : List Call
  array : Option BFarray
  deriving DecidableEq, Repr

/-! ## Member access -/

/-- Read `xs[i]` for a C index `i`; `none` outside the member. -/
def rd (xs : List Int) (i : Int) : Option Int :=
  if 0 ≤ i then xs[i.toNat]? else none

/-- Write `xs[i] = v` for a C index `i`; `none` outside the member. -/
def wr (xs : List Int) (i : Int) (v : Int) : Option (List Int) :=
  if 0 ≤ i ∧ i.toNat < xs.length then some (xs.set i.toNat v) else none

/-! ## `bfArrayMalloc` -/

/-- The loop `for( ; d-->0; ) strides[d] = strides[d+1] * shape[d+1];` of
`bfArrayMalloc`, entered with loop variable `d` equal to the `Nat` argument.
The test `d-- > 0` fails at once for `d = 0`; for `d = k+1` it succeeds and
the body runs with `d = k`. -/
def strideLoop (shape : List Int) : Nat → List Int → Option (List Int)
  | 0, strides => some strides
  | k + 1, strides => do
      let s ← rd strides ((k : Int) + 1)
      let n ← rd shape ((k : Int) + 1)
      let strides ← wr strides (k : Int) (s * n)
      strideLoop shape k strides

/-- The function `bfArrayMalloc(BFarray* array)`. -/
def bfArrayMalloc (E : Externals) : Option BFarray → Option MallocOutcome
  | none => some ⟨.BF_STATUS_INVALID_POINTER, [], none⟩
  | some array => do
      let d : Int := array.ndim - 1
      let strides ← wr array.strides d (get_dtype_nbyte E array.dtype)
      -- a loop variable `d <= 0` leaves the loop at its first test
      let strides ← strideLoop array.shape d.toNat strides
      let s0 ← rd strides 0
      let n0 ← rd array.shape 0
      let size : Int := s0 * n0
      let r := E.bfMalloc array.data size array.space
      some ⟨r.1, [Call.bfMalloc size array.space],
            some { array with strides := strides, data := r.2 }⟩

/-- The function `bfArrayFree(const BFarray* array)`. -/
def bfArrayFree (E : Externals) : Option BFarray → Outcome
  | none => ⟨.BF_STATUS_INVALID_POINTER, []⟩
  | some array =>
      ⟨E.bfFree array.data array.space, [Call.bfFree array.data array.space]⟩

/-! ## Layout helpers used by `bfArrayCopy` and `bfArrayMemset` -/

/-- The dimensions of a descriptor, outermost first, as pairs
`(shape[d], strides[d])` for `d < ndim`. -/
def dims (a : BFarray) : List (Int × Int) :=
  (a.shape.take a.ndim.toNat).zip (a.strides.take a.ndim.toNat)

/-- Modelled from the spec: `shapes_equal` (defined in `utils.hpp`, not part
of `array.cpp`).  Two descriptors are shape-equal iff `ndim` and every
`shape[i]` match. -/
def shapes_equal (a b : BFarray) : Bool :=
  a.ndim == b.ndim && a.shape.take a.ndim.toNat == b.shape.take b.ndim.toNat

/-- Stride/shape consistency of every dimension for element size `e`: the
innermost stride is `e` and `strides[d] == strides[d+1] * shape[d+1]` for
every other `d`. -/
def contiguousDims (e : Int) : List (Int × Int) → Bool
  | [] => true
  | [p] => p.2 == e
  | p :: q :: rest => p.2 == q.2 * q.1 && contiguousDims e (q :: rest)

/-- Modelled from the spec: `is_contiguous` (defined in `utils.hpp`, not part
of `array.cpp`).  A descriptor is fully contiguous when
`strides[ndim-1] == element_size(dtype)` and
`strides[d] == strides[d+1] * shape[d+1]` holds for all `d`. -/
def is_contiguous (E : Externals) (a : BFarray) : Bool :=
  contiguousDims (E.element_size a.dtype) (dims a)

/-- Merge adjacent dimensions, innermost pair first: dimension `d` is merged
with the (already reduced) dimension `d+1` when
`strides[d] == strides[d+1] * shape[d+1]`, giving one dimension of extent
`shape[d] * shape[d+1]` and stride `strides[d+1]`. -/
def squeezeDims : List (Int × Int) → List (Int × Int)
  | [] => []
  | p :: rest =>
      match squeezeDims rest with
      | [] => [p]
      | q :: out =>
          if p.2 = q.2 * q.1 then (p.1 * q.1, q.2) :: out else p :: q :: out

/-- Modelled from the spec: `squeeze_contiguous_dims` (defined in `utils.hpp`,
not part of `array.cpp`), the layout reducer.  It merges each maximal run of
adjacent dimensions `d, d+1` with `strides[d] == strides[d+1] * shape[d+1]`
into one dimension with `shape = shape[d]*shape[d+1]` and
`stride = strides[d+1]`; element type, space and data are kept. -/
def squeeze_contiguous_dims (a : BFarray) : BFarray :=
  { a with
    ndim := ((squeezeDims (dims a)).length : Int)
    shape := (squeezeDims (dims a)).map Prod.fst
    strides := (squeezeDims (dims a)).map Prod.snd }

/-! ## `bfArrayCopy` -/

/-- The part of `bfArrayCopy` after the operands are chosen (lines 98-114):
bulk transfer when both are contiguous, a 2D strided transfer for rank 1 or 2,
`BF_STATUS_UNSUPPORTED` otherwise. -/
def copyDispatch (E : Externals) (dst src : BFarray) : Option Outcome :=
  let ndim := dst.ndim
  let shape := dst.shape
  if is_contiguous E src && is_contiguous E dst then do
    let s0 ← rd dst.strides 0
    let n0 ← rd dst.shape 0
    let size_bytes : Int := s0 * n0
    some ⟨E.bfMemcpy dst.data dst.space src.data src.space size_bytes,
          [Call.bfMemcpy dst.data dst.space src.data src.space size_bytes]⟩
  else if ndim = 1 ∨ ndim = 2 then do
    let itemsize_bytes : Int := BF_DTYPE_NBYTE E src.dtype
    let w ← (if ndim = 2 then rd shape 1 else some 1)
    let width_bytes : Int := w * itemsize_bytes
    let dpitch ← rd dst.strides 0
    let spitch ← rd src.strides 0
    let height ← rd shape 0
    some ⟨E.bfMemcpy2D dst.data dpitch dst.space src.data spitch src.space
            width_bytes height,
          [Call.bfMemcpy2D dst.data dpitch dst.space src.data spitch src.space
            width_bytes height]⟩
  else
    some ⟨.BF_STATUS_UNSUPPORTED, []⟩

/-- The function `bfArrayCopy(const BFarray* dst, const BFarray* src)`.  `BF_ASSERT(c, err)`
returns `err` when `c` is false; `BF_FAIL(msg, err)` returns `err`. -/
def bfArrayCopy (E : Externals) : Option BFarray → Option BFarray → Option Outcome
  | none, _ => some ⟨.BF_STATUS_INVALID_POINTER, []⟩
  | some _, none => some ⟨.BF_STATUS_INVALID_POINTER, []⟩
  | some dst, some src =>
      if shapes_equal dst src = false then
        some ⟨.BF_STATUS_INVALID_SHAPE, []⟩
      else if dst.dtype ≠ src.dtype then
        some ⟨.BF_STATUS_INVALID_DTYPE, []⟩
      else
        let dst_squeezed := squeeze_contiguous_dims dst
        let src_squeezed := squeeze_contiguous_dims src
        if shapes_equal dst_squeezed src_squeezed then
          copyDispatch E dst_squeezed src_squeezed
        else
          copyDispatch E dst src

/-! ## `bfArrayMemset` -/

/-- The part of `bfArrayMemset` after the reduction (lines 126-140). -/
def memsetDispatch (E : Externals) (dst : BFarray) (value : Int) : Option Outcome :=
  let ndim := dst.ndim
  let shape := dst.shape
  if is_contiguous E dst then do
    let s0 ← rd dst.strides 0
    let n0 ← rd dst.shape 0
    let size_bytes : Int := s0 * n0
    some ⟨E.bfMemset dst.data dst.space value size_bytes,
          [Call.bfMemset dst.data dst.space value size_bytes]⟩
  else if ndim = 1 ∨ ndim = 2 then do
    let itemsize_bytes : Int := BF_DTYPE_NBYTE E dst.dtype
    let w ← (if ndim = 2 then rd shape 1 else some 1)
    let width_bytes : Int := w * itemsize_bytes
    let pitch ← rd dst.strides 0
    let height ← rd shape 0
    some ⟨E.bfMemset2D dst.data pitch dst.space value width_bytes height,
          [Call.bfMemset2D dst.data pitch dst.space value width_bytes height]⟩
  else
    some ⟨.BF_STATUS_UNSUPPORTED, []⟩

/-- The function `bfArrayMemset(const BFarray* dst, int value)`.  The conversion
`(unsigned char)(value)` is `value` modulo `256`. -/
def bfArrayMemset (E : Externals) : Option BFarray → Int → Option Outcome
  | none, _ => some ⟨.BF_STATUS_INVALID_POINTER, []⟩
  | some dst, value =>
      if value % 256 ≠ value then
        some ⟨.BF_STATUS_INVALID_ARGUMENT, []⟩
      else
        memsetDispatch E (squeeze_contiguous_dims dst) value

/-! ## Well-formed descriptors, memory and example values -/

/-- A descriptor whose rank fits its members: `1 ≤ ndim ≤ capacity`. -/
def BFarray.wf (a : BFarray) : Prop :=
  1 ≤ a.ndim ∧ a.ndim ≤ a.shape.length ∧ a.ndim ≤ a.strides.length

instance (a : BFarray) : Decidable a.wf := by
  unfold BFarray.wf; infer_instance

/-- Byte memory: `m space addr` is the byte stored at `addr` in `space`. -/
abbrev Memory := Nat → Int → Fin 256

/-- Modelled from the spec: the external `bulk_copy` (`bfMemcpy`, defined
outside `array.cpp`) copies a single contiguous byte range of `size_bytes`
bytes from `src` in `src_space` to `dst` in `dst_space`. -/
def bulk_copy (m : Memory) (dst dst_space src src_space : Nat) (size_bytes : Int) :
    Memory :=
  fun sp addr =>
    if sp = dst_space ∧ (dst : Int) ≤ addr ∧ addr < (dst : Int) + size_bytes then
      m src_space ((src : Int) + (addr - (dst : Int)))
    else m sp addr

/-- Memory after a successful bulk transfer; the other primitives are not
interpreted here. -/
def Call.effect (m : Memory) : Call → Memory
  | .bfMemcpy dst dst_space src src_space size_bytes =>
      bulk_copy m dst dst_space src src_space size_bytes
  | _ => m

/-- An environment in which every element has 4 bytes, every primitive
succeeds and the allocator hands out address 4096. -/
def okExternals : Externals where
  element_size := fun _ => 4
  bfMalloc := fun _ _ _ => (.BF_STATUS_SUCCESS, 4096)
  bfFree := fun _ _ => .BF_STATUS_SUCCESS
  bfMemcpy := fun _ _ _ _ _ => .BF_STATUS_SUCCESS
  bfMemcpy2D := fun _ _ _ _ _ _ _ _ => .BF_STATUS_SUCCESS
  bfMemset := fun _ _ _ _ => .BF_STATUS_SUCCESS
  bfMemset2D := fun _ _ _ _ _ _ => .BF_STATUS_SUCCESS

/-- An environment whose fill primitives reject every request with
`BF_STATUS_INVALID_ARGUMENT` (for example because the space tag is unknown to
them); elements have 4 bytes. -/
def rejectingExternals : Externals where
  element_size := fun _ => 4
  bfMalloc := fun old _ _ => (.BF_STATUS_OTHER 1, old)
  bfFree := fun _ _ => .BF_STATUS_SUCCESS
  bfMemcpy := fun _ _ _ _ _ => .BF_STATUS_SUCCESS
  bfMemcpy2D := fun _ _ _ _ _ _ _ _ => .BF_STATUS_SUCCESS
  bfMemset := fun _ _ _ _ => .BF_STATUS_INVALID_ARGUMENT
  bfMemset2D := fun _ _ _ _ _ _ => .BF_STATUS_INVALID_ARGUMENT

/-- A descriptor of dtype tag 0 in space 0 whose members hold exactly `ndim`
entries. -/
def mkArray (data : Nat) (shape strides : List Int) : BFarray :=
  ⟨data, 0, 0, (shape.length : Int), shape, strides⟩

/-- Row-major sequence of the element byte offsets addressed by dimensions
`(extent, stride)`, outermost first: the offsets `sum_i idx_i * strides[i]`
with `0 ≤ idx_i < shape[i]`, the last index running fastest. -/
def elementOffsets : List (Int × Int) → List Int
  | [] => [0]
  | p :: rest =>
      (List.range p.1.toNat).flatMap fun (i : Nat) =>
        (elementOffsets rest).map fun o => (i : Int) * p.2 + o

/-- Byte offsets of the addressed elements, each element `e` bytes wide:
`sum_i idx_i * strides[i] + k` with `0 ≤ k < e`, element by element. -/
def elementBytes (e : Int) (ds : List (Int × Int)) : List Int :=
  (elementOffsets ds).flatMap fun o => (List.range e.toNat).map fun (k : Nat) => o + (k : Int)

/-- Modelled from the spec: which byte goes where in the external transfer
primitives (defined outside `array.cpp`), as pairs (offset from the
destination handle, offset from the source handle) in the order copied.
`bulk_copy` copies a single contiguous byte range of `size_bytes` bytes;
`strided_copy_2d` copies `row_count` rows of `row_width_bytes` bytes, successive
rows lying one pitch apart in each operand. -/
def Call.transferPlan : Call → List (Int × Int)
  | .bfMemcpy _ _ _ _ size_bytes =>
      (List.range size_bytes.toNat).map fun (k : Nat) => ((k : Int), (k : Int))
  | .bfMemcpy2D _ dst_stride _ _ src_stride _ width_bytes height =>
      (List.range height.toNat).flatMap fun (j : Nat) =>
        (List.range width_bytes.toNat).map fun (k : Nat) =>
          ((j : Int) * dst_stride + (k : Int), (j : Int) * src_stride + (k : Int))
  | _ => []

/-- The operands `bfArrayCopy` goes on with after lines 89-96: the reduced
pair when the two reductions are shape-equal, the caller's pair otherwise. -/
def copyOperands (dst src : BFarray) : BFarray × BFarray :=
  if shapes_equal (squeeze_contiguous_dims dst) (squeeze_contiguous_dims src) then
    (squeeze_contiguous_dims dst, squeeze_contiguous_dims src)
  else (dst, src)

/-- The fill invocation that corresponds to a transfer invocation: same
destination handle, space, size, pitch, row width and row count, with the
fill value in place of the source. -/
def Call.asFill (value : Int) : Call → Call
  | .bfMemcpy dst dst_space _ _ size_bytes => .bfMemset dst dst_space value size_bytes
  | .bfMemcpy2D dst dst_stride dst_space _ _ _ width_bytes height =>
      .bfMemset2D dst dst_stride dst_space value width_bytes height
  | c => c

/-- One access to a member of the descriptor made by `bfArrayMalloc`, with
the index used. -/
inductive Access where
  | readShape (i : Int)
  | readStrides (i : Int)
  | writeStrides (i : Int)
  deriving DecidableEq, Repr

/-- The index an access uses. -/
def Access.index : Access → Int
  | .readShape i => i
  | .readStrides i => i
  | .writeStrides i => i

/-- The index written, for a write to `strides[]`. -/
def Access.written : Access → Option Int
  | .writeStrides i => some i
  | _ => none

/-- Whether an access stays inside its member, for members of the given
capacities. -/
def Access.inBounds (shapeCap stridesCap : Nat) : Access → Bool
  | .readShape i => decide (0 ≤ i ∧ i < (shapeCap : Int))
  | .readStrides i => decide (0 ≤ i ∧ i < (stridesCap : Int))
  | .writeStrides i => decide (0 ≤ i ∧ i < (stridesCap : Int))

/-- The accesses of the loop of `bfArrayMalloc` entered with loop variable `d`
equal to the argument (see `strideLoop`): each iteration, with `d = k`, reads
`strides[k+1]` and `shape[k+1]` and writes `strides[k]`. -/
def strideLoopAccesses : Nat → List Access
  | 0 => []
  | k + 1 =>
      [.readStrides ((k : Int) + 1), .readShape ((k : Int) + 1), .writeStrides (k : Int)]
        ++ strideLoopAccesses k

/-- All member accesses of `bfArrayMalloc` (lines 66-71) for a descriptor of
rank `ndim`, in program order. -/
def bfArrayMallocAccesses (ndim : Int) : List Access :=
  [.writeStrides (ndim - 1)] ++ strideLoopAccesses (ndim - 1).toNat
    ++ [.readStrides 0, .readShape 0]

/-- Record of a run of the loop of `bfArrayMalloc`: the member accesses made,
in order, the number of times the loop body was entered, and the strides
left (`none` once an access fell outside its member). -/
structure LoopRun where
  accesses : List Access
  iterations : Nat
  strides : Option (List Int)
  deriving DecidableEq, Repr

/-- Record of a run of `bfArrayMalloc`: the member accesses made, in order,
the number of loop iterations, and the outcome (`none` once an access fell
outside its member). -/
structure MallocRun where
  accesses : List Access
  iterations : Nat
  outcome : Option MallocOutcome
  deriving DecidableEq, Repr

/-- The loop `for( ; d-->0; ) strides[d] = strides[d+1] * shape[d+1];` run
with a log: the same steps as `strideLoop`, each access recorded as it is
made, the run ending at the first access outside its member. -/
def strideLoopTraced (shape : List Int) : Nat → List Int → LoopRun
  | 0, strides => ⟨[], 0, some strides⟩
  | k + 1, strides =>
      match rd strides ((k : Int) + 1) with
      | none => ⟨[.readStrides ((k : Int) + 1)], 1, none⟩
      | some s =>
          match rd shape ((k : Int) + 1) with
          | none => ⟨[.readStrides ((k : Int) + 1), .readShape ((k : Int) + 1)], 1, none⟩
          | some n =>
              match wr strides (k : Int) (s * n) with
              | none =>
                  ⟨[.readStrides ((k : Int) + 1), .readShape ((k : Int) + 1),
                    .writeStrides (k : Int)], 1, none⟩
              | some strides2 =>
                  ⟨[.readStrides ((k : Int) + 1), .readShape ((k : Int) + 1),
                      .writeStrides (k : Int)]
                      ++ (strideLoopTraced shape k strides2).accesses,
                    (strideLoopTraced shape k strides2).iterations + 1,
                    (strideLoopTraced shape k strides2).strides⟩

/-- The function `bfArrayMalloc(BFarray* array)` run with a log: the same
steps as `bfArrayMalloc`, each member access recorded as it is made, the run
ending at the first access outside its member. -/
def bfArrayMallocTraced (E : Externals) : Option BFarray → MallocRun
  | none => ⟨[], 0, some ⟨.BF_STATUS_INVALID_POINTER, [], none⟩⟩
  | some array =>
      let d : Int := array.ndim - 1
      match wr array.strides d (get_dtype_nbyte E array.dtype) with
      | none => ⟨[.writeStrides d], 0, none⟩
      | some strides =>
          let r := strideLoopTraced array.shape d.toNat strides
          match r.strides with
          | none => ⟨.writeStrides d :: r.accesses, r.iterations, none⟩
          | some strides2 =>
              match rd strides2 0 with
              | none => ⟨.writeStrides d :: r.accesses ++ [.readStrides 0], r.iterations, none⟩
              | some s0 =>
                  match rd array.shape 0 with
                  | none =>
                      ⟨.writeStrides d :: r.accesses ++ [.readStrides 0, .readShape 0],
                        r.iterations, none⟩
                  | some n0 =>
                      ⟨.writeStrides d :: r.accesses ++ [.readStrides 0, .readShape 0],
                        r.iterations,
                        some ⟨(E.bfMalloc array.data (s0 * n0) array.space).1,
                              [Call.bfMalloc (s0 * n0) array.space],
                              some { array with
                                     strides := strides2
                                     data := (E.bfMalloc array.data (s0 * n0) array.space).2 }⟩⟩

/-! ## Lemmas on member access and the stride loop -/

theorem rd_natCast (xs : List Int) (k : Nat) : rd xs (k : Int) = xs[k]? := by
  simp [rd]

theorem rd_natCast_succ (xs : List Int) (k : Nat) : rd xs ((k : Int) + 1) = xs[k + 1]? := by
  have h : ((k : Int) + 1) = ((k + 1 : Nat) : Int) := by push_cast; rfl
  rw [h, rd_natCast]

theorem rd_zero (xs : List Int) : rd xs 0 = xs[0]? := by
  simp [rd]

theorem wr_natCast (xs : List Int) (k : Nat) (v : Int) (h : k < xs.length) :
    wr xs (k : Int) v = some (xs.set k v) := by
  simp [wr, h]

theorem strideLoop_spec (shape : List Int) : ∀ (k : Nat) (strides : List Int),
    k < strides.length → k < shape.length →
    ∃ r, strideLoop shape k strides = some r ∧ r.length = strides.length ∧
      (∀ j, k ≤ j → r[j]? = strides[j]?) ∧
      (∀ j, j < k → ∃ s n, r[j + 1]? = some s ∧ shape[j + 1]? = some n ∧
        r[j]? = some (s * n)) := by
  intro k
  induction k with
  | zero =>
      intro strides _ _
      exact ⟨strides, rfl, rfl, fun _ _ => rfl, fun j hj => absurd hj (Nat.not_lt_zero j)⟩
  | succ k ih =>
      intro strides hk hs
      obtain ⟨s, hsv⟩ : ∃ s, strides[k + 1]? = some s :=
        ⟨strides[k + 1], List.getElem?_eq_getElem hk⟩
      obtain ⟨n, hnv⟩ : ∃ n, shape[k + 1]? = some n :=
        ⟨shape[k + 1], List.getElem?_eq_getElem hs⟩
      have hk' : k < strides.length := Nat.lt_of_succ_lt hk
      obtain ⟨r, hr, hlen, hfix, hrel⟩ :=
        ih (strides.set k (s * n)) (by simpa using hk') (Nat.lt_of_succ_lt hs)
      refine ⟨r, ?_, ?_, ?_, ?_⟩
      · simp [strideLoop, rd_natCast_succ, hsv, hnv, wr_natCast _ _ _ hk', hr]
      · simpa using hlen
      · intro j hj
        rw [hfix j (by omega), List.getElem?_set_ne (by omega)]
      · intro j hj
        by_cases hjk : j < k
        · exact hrel j hjk
        · have hje : j = k := by omega
          subst hje
          refine ⟨s, n, ?_, hnv, ?_⟩
          · rw [hfix (j + 1) (by omega), List.getElem?_set_ne (by omega), hsv]
          · rw [hfix j (le_refl j), List.getElem?_set_self hk']


theorem bfArrayMalloc_run (E : Externals) (array : BFarray) (hwf : array.wf) :
    ∃ (r : List Int) (n : Nat), array.ndim = (n : Int) + 1 ∧
      r.length = array.strides.length ∧
      r[n]? = some (get_dtype_nbyte E array.dtype) ∧
      (∀ j, j < n → ∃ s m, r[j + 1]? = some s ∧ array.shape[j + 1]? = some m ∧
        r[j]? = some (s * m)) ∧
      ∃ s0 n0, r[0]? = some s0 ∧ array.shape[0]? = some n0 ∧
        bfArrayMalloc E (some array) =
          some ⟨(E.bfMalloc array.data (s0 * n0) array.space).1,
                [Call.bfMalloc (s0 * n0) array.space],
                some { array with
                       strides := r
                       data := (E.bfMalloc array.data (s0 * n0) array.space).2 }⟩ := by
  obtain ⟨h1, hshape, hstrides⟩ := hwf
  obtain ⟨n, hn⟩ : ∃ n : Nat, array.ndim = (n : Int) + 1 :=
    ⟨(array.ndim - 1).toNat, by omega⟩
  have hnS : n < array.shape.length := by omega
  have hnT : n < array.strides.length := by omega
  obtain ⟨r, hr, hlen, hfix, hrel⟩ :=
    strideLoop_spec array.shape n (array.strides.set n (get_dtype_nbyte E array.dtype))
      (by simpa using hnT) hnS
  have hrn : r[n]? = some (get_dtype_nbyte E array.dtype) := by
    rw [hfix n (le_refl n), List.getElem?_set_self hnT]
  have hlen' : r.length = array.strides.length := by simpa using hlen
  obtain ⟨s0, hs0⟩ : ∃ s0, r[0]? = some s0 :=
    ⟨r[0], List.getElem?_eq_getElem (by omega)⟩
  obtain ⟨n0, hn0⟩ : ∃ n0, array.shape[0]? = some n0 :=
    ⟨array.shape[0], List.getElem?_eq_getElem (by omega)⟩
  refine ⟨r, n, hn, hlen', hrn, hrel, s0, n0, hs0, hn0, ?_⟩
  have hd : array.ndim - 1 = (n : Int) := by omega
  simp [bfArrayMalloc, hd, wr_natCast _ _ _ hnT, hr, rd_zero, hs0, hn0]


theorem contiguousDims_of_index (e : Int) : ∀ (ns ss : List Int),
    ns.length = ss.length → ns ≠ [] →
    ss[ss.length - 1]? = some e →
    (∀ j, j + 1 < ss.length → ∃ s n, ss[j + 1]? = some s ∧ ns[j + 1]? = some n ∧
      ss[j]? = some (s * n)) →
    contiguousDims e (ns.zip ss) = true := by
  intro ns
  induction ns with
  | nil => intro ss _ h; exact absurd rfl h
  | cons n0 ns ih =>
      intro ss hlen _ hlast hrel
      cases ss with
      | nil => simp at hlen
      | cons s0 ss =>
          cases ns with
          | nil =>
              cases ss with
              | nil => simpa [contiguousDims] using hlast
              | cons s1 ss => simp at hlen
          | cons n1 ns =>
              cases ss with
              | nil => simp at hlen
              | cons s1 ss =>
                  have h0 := hrel 0 (by simp)
                  obtain ⟨s, n, hs, hn, hsn⟩ := h0
                  simp at hs hn hsn
                  subst hs hn
                  have hrec : contiguousDims e ((n1 :: ns).zip (s1 :: ss)) = true := by
                    apply ih (s1 :: ss) (by simpa using hlen) (by simp)
                    · simpa using hlast
                    · intro j hj
                      have := hrel (j + 1) (by simpa using hj)
                      simpa using this
                  simp only [List.zip_cons_cons] at hrec ⊢
                  simp only [contiguousDims, hrec, hsn, beq_self_eq_true, Bool.and_self]

theorem contiguousDims_head_mul (e : Int) : ∀ (p : Int × Int) (rest : List (Int × Int)),
    contiguousDims e (p :: rest) = true →
    p.2 * p.1 = e * ((p :: rest).map Prod.fst).prod := by
  intro p rest
  induction rest generalizing p with
  | nil =>
      intro h
      simp [contiguousDims] at h
      simp [h]
  | cons q rest ih =>
      intro h
      simp [contiguousDims] at h
      have := ih q h.2
      simp only [List.map_cons, List.prod_cons] at this ⊢
      rw [h.1, this]; ring

theorem squeezeDims_contiguous (e : Int) : ∀ (l : List (Int × Int)),
    contiguousDims e l = true → l ≠ [] →
    squeezeDims l = [((l.map Prod.fst).prod, e)] := by
  intro l
  induction l with
  | nil => intro _ h; exact absurd rfl h
  | cons p rest ih =>
      intro h _
      cases rest with
      | nil =>
          simp [contiguousDims] at h
          simp [squeezeDims, ← h]
      | cons q rest =>
          have hm := contiguousDims_head_mul e q rest (by simp [contiguousDims] at h; exact h.2)
          simp [contiguousDims] at h
          have hq := ih h.2 (by simp)
          simp only [squeezeDims] at hq ⊢
          rw [hq]
          simp only [List.map_cons, List.prod_cons] at hm ⊢
          simp [h.1, hm]
          

theorem squeezeDims_head (q : Int × Int) (rest : List (Int × Int)) :
    ∃ q2 out, squeezeDims (q :: rest) = q2 :: out ∧ q2.2 * q2.1 = q.2 * q.1 := by
  cases h : squeezeDims rest with
  | nil => exact ⟨q, [], by simp [squeezeDims, h], rfl⟩
  | cons r out =>
      by_cases hm : q.2 = r.2 * r.1
      · exact ⟨(q.1 * r.1, r.2), out, by simp [squeezeDims, h, hm], by simp only [hm]; ring⟩
      · exact ⟨q, r :: out, by simp [squeezeDims, h, hm], rfl⟩

theorem dims_squeeze (a : BFarray) :
    dims (squeeze_contiguous_dims a) = squeezeDims (dims a) := by
  have h := List.zip_unzip (squeezeDims (dims a))
  rw [List.unzip_eq_map] at h
  simp only [dims, squeeze_contiguous_dims, Int.toNat_ofNat]
  have h1 : ((squeezeDims (dims a)).map Prod.fst).take (squeezeDims (dims a)).length
      = (squeezeDims (dims a)).map Prod.fst := by
    apply List.take_of_length_le; simp
  have h2 : ((squeezeDims (dims a)).map Prod.snd).take (squeezeDims (dims a)).length
      = (squeezeDims (dims a)).map Prod.snd := by
    apply List.take_of_length_le; simp
  simp only [dims] at h1 h2 h
  rw [h1, h2]
  exact h

theorem malloc_contiguous (e : Int) (shape r : List Int) (n : Nat)
    (hS : n < shape.length) (hR : n < r.length)
    (hlast : r[n]? = some e)
    (hrel : ∀ j, j < n → ∃ s m, r[j + 1]? = some s ∧ shape[j + 1]? = some m ∧
        r[j]? = some (s * m)) :
    contiguousDims e ((shape.take (n + 1)).zip (r.take (n + 1))) = true := by
  have hl1 : (shape.take (n + 1)).length = n + 1 := by simp; omega
  have hl2 : (r.take (n + 1)).length = n + 1 := by simp; omega
  apply contiguousDims_of_index
  · rw [hl1, hl2]
  · intro h; rw [h] at hl1; simp at hl1
  · rw [hl2]; simpa using hlast
  · rw [hl2]
    intro j hj
    obtain ⟨s, m, h1, h2, h3⟩ := hrel j (by omega)
    refine ⟨s, m, ?_, ?_, ?_⟩
    · rw [List.getElem?_take_of_lt (by omega)]; exact h1
    · rw [List.getElem?_take_of_lt (by omega)]; exact h2
    · rw [List.getElem?_take_of_lt (by omega)]; exact h3

theorem take_eq_iff_getElem? (n : Nat) (xs ys : List Int) :
    xs.take n = ys.take n ↔ ∀ i, i < n → xs[i]? = ys[i]? := by
  constructor
  · intro h i hi
    rw [← List.getElem?_take_of_lt hi, h, List.getElem?_take_of_lt hi]
  · intro h
    apply List.ext_getElem?
    intro i
    by_cases hi : i < n
    · rw [List.getElem?_take_of_lt hi, List.getElem?_take_of_lt hi]; exact h i hi
    · rw [List.getElem?_take_eq_none (by omega), List.getElem?_take_eq_none (by omega)]

theorem shapes_equal_iff (a b : BFarray) :
    shapes_equal a b = true ↔
      a.ndim = b.ndim ∧ ∀ i : Int, 0 ≤ i → i < a.ndim → rd a.shape i = rd b.shape i := by
  simp only [shapes_equal, Bool.and_eq_true, beq_iff_eq]
  constructor
  · rintro ⟨hn, ht⟩
    refine ⟨hn, ?_⟩
    intro i h0 h1
    obtain ⟨j, hj⟩ : ∃ j : Nat, i = (j : Int) := ⟨i.toNat, by omega⟩
    subst hj
    rw [← hn] at ht
    simp only [rd_natCast]
    exact (take_eq_iff_getElem? _ _ _).1 ht j (by omega)
  · rintro ⟨hn, hi⟩
    refine ⟨hn, ?_⟩
    rw [← hn]
    apply (take_eq_iff_getElem? _ _ _).2
    intro j hj
    have := hi (j : Int) (by omega) (by omega)
    simpa only [rd_natCast] using this

/-! ## Lemmas on the layout helpers -/

theorem dims_head (a : BFarray) (hwf : a.wf) :
    ∃ n0 s0 rest, rd a.shape 0 = some n0 ∧ rd a.strides 0 = some s0 ∧
      dims a = (n0, s0) :: rest ∧
      (dims a).map Prod.fst = a.shape.take a.ndim.toNat := by
  obtain ⟨h1, hS, hT⟩ := hwf
  obtain ⟨n, hn⟩ : ∃ n : Nat, a.ndim.toNat = n + 1 := ⟨a.ndim.toNat - 1, by omega⟩
  have hmap : (dims a).map Prod.fst = a.shape.take a.ndim.toNat := by
    apply List.map_fst_zip
    simp only [List.length_take]; omega
  cases hsh : a.shape with
  | nil => rw [hsh] at hS; simp at hS; omega
  | cons x xs =>
      cases hst : a.strides with
      | nil => rw [hst] at hT; simp at hT; omega
      | cons y ys =>
          refine ⟨x, y, (xs.take n).zip (ys.take n), ?_, ?_, ?_, ?_⟩
          · simp [rd_zero]
          · simp [rd_zero]
          · simp [dims, hsh, hst, hn]
          · rw [hmap, hsh]

theorem squeeze_of_contiguous (E : Externals) (a : BFarray) (hwf : a.wf)
    (hc : is_contiguous E a = true) :
    squeeze_contiguous_dims a =
      { a with
        ndim := 1
        shape := [(a.shape.take a.ndim.toNat).prod]
        strides := [E.element_size a.dtype] } := by
  obtain ⟨n0, s0, rest, _, _, hd, hmap⟩ := dims_head a hwf
  have hsq := squeezeDims_contiguous (E.element_size a.dtype) (dims a) hc (by rw [hd]; simp)
  rw [hmap] at hsq
  simp [squeeze_contiguous_dims, hsq]

theorem shapes_equal_take (a b : BFarray) (h : shapes_equal a b = true) :
    a.shape.take a.ndim.toNat = b.shape.take b.ndim.toNat := by
  simp only [shapes_equal, Bool.and_eq_true, beq_iff_eq] at h
  exact h.2

theorem copy_contiguous_core (E : Externals) (dst src : BFarray)
    (hd : dst.wf) (hs : src.wf) (hshape : shapes_equal dst src = true)
    (hdtype : dst.dtype = src.dtype)
    (hcd : is_contiguous E dst = true) (hcs : is_contiguous E src = true) :
    bfArrayCopy E (some dst) (some src) =
      some ⟨E.bfMemcpy dst.data dst.space src.data src.space
              (E.element_size dst.dtype * (dst.shape.take dst.ndim.toNat).prod),
            [Call.bfMemcpy dst.data dst.space src.data src.space
              (E.element_size dst.dtype * (dst.shape.take dst.ndim.toNat).prod)]⟩ := by
  have h1 := squeeze_of_contiguous E dst hd hcd
  have h2 := squeeze_of_contiguous E src hs hcs
  have ht := shapes_equal_take dst src hshape
  simp only [bfArrayCopy, hshape, hdtype, h1, h2, ← ht]
  simp [shapes_equal, copyDispatch, is_contiguous, dims, contiguousDims, rd, hdtype]

theorem take_two (l : List Int) (a b : Int) (h0 : rd l 0 = some a) (h1 : rd l 1 = some b) :
    l.take 2 = [a, b] := by
  match l, h0, h1 with
  | [], h0, _ => simp [rd] at h0
  | [_], _, h1 => simp [rd] at h1
  | x :: y :: _, h0, h1 =>
      simp [rd] at h0 h1
      simp [h0, h1]

theorem take_three (l : List Int) (a b c : Int) (h0 : rd l 0 = some a)
    (h1 : rd l 1 = some b) (h2 : rd l 2 = some c) :
    l.take 3 = [a, b, c] := by
  match l, h0, h1, h2 with
  | [], h0, _, _ => simp [rd] at h0
  | [_], _, h1, _ => simp [rd] at h1
  | [_, _], _, _, h2 => simp [rd] at h2
  | x :: y :: z :: _, h0, h1, h2 =>
      simp [rd] at h0 h1 h2
      simp [h0, h1, h2]

theorem shapes_equal_symm (a b : BFarray) (h : shapes_equal a b = true) :
    shapes_equal b a = true := by
  simp only [shapes_equal, Bool.and_eq_true, beq_iff_eq] at h ⊢
  exact ⟨h.1.symm, h.2.symm⟩

theorem shapes_equal_ndim (a b : BFarray) (h : shapes_equal a b = true) :
    a.ndim = b.ndim := by
  simp only [shapes_equal, Bool.and_eq_true, beq_iff_eq] at h
  exact h.1

theorem copyDispatch_unsupported (E : Externals) (dst src : BFarray)
    (h : is_contiguous E src = false ∨ is_contiguous E dst = false)
    (hn : dst.ndim = 3) :
    copyDispatch E dst src = some ⟨.BF_STATUS_UNSUPPORTED, []⟩ := by
  have hc : (is_contiguous E src && is_contiguous E dst) = false := by
    rcases h with h | h <;> simp [h]
  simp [copyDispatch, hc, hn]

theorem rank3_layout (E : Externals) (x : BFarray) (n0 n1 n2 s0 s1 s2 : Int)
    (hn : x.ndim = 3)
    (hn0 : rd x.shape 0 = some n0) (hn1 : rd x.shape 1 = some n1)
    (hn2 : rd x.shape 2 = some n2)
    (hs0 : rd x.strides 0 = some s0) (hs1 : rd x.strides 1 = some s1)
    (hs2 : rd x.strides 2 = some s2)
    (h01 : s0 ≠ s1 * n1) (h12 : s1 ≠ s2 * n2) :
    is_contiguous E x = false ∧
    (squeeze_contiguous_dims x).ndim = 3 ∧
    is_contiguous E (squeeze_contiguous_dims x) = false := by
  have tsh := take_three _ _ _ _ hn0 hn1 hn2
  have tst := take_three _ _ _ _ hs0 hs1 hs2
  have hd : dims x = [(n0, s0), (n1, s1), (n2, s2)] := by
    simp [dims, hn, tsh, tst]
  have hsq : squeezeDims (dims x) = [(n0, s0), (n1, s1), (n2, s2)] := by
    simp [hd, squeezeDims, h01, h12]
  have hc : is_contiguous E x = false := by
    simp [is_contiguous, hd, contiguousDims, h01]
  refine ⟨hc, ?_, ?_⟩
  · simp [squeeze_contiguous_dims, hsq]
  · have := dims_squeeze x
    simp only [is_contiguous] at hc ⊢
    rw [this, hsq, ← hd]
    exact hc

theorem bfArrayMalloc_layout (E : Externals) (d0 : BFarray) (hwf : d0.wf)
    (out : MallocOutcome) (dst : BFarray)
    (halloc : bfArrayMalloc E (some d0) = some out) (harr : out.array = some dst) :
    dst.wf ∧ is_contiguous E dst = true ∧ dst.ndim = d0.ndim ∧ dst.shape = d0.shape ∧
      dst.dtype = d0.dtype ∧ dst.space = d0.space := by
  obtain ⟨r, n, hn, hlen, hlast, hrel, s0, n0, _, _, hrun⟩ := bfArrayMalloc_run E d0 hwf
  rw [hrun] at halloc
  simp only [Option.some.injEq] at halloc
  subst halloc
  simp only [Option.some.injEq] at harr
  subst harr
  obtain ⟨h1, hS, hT⟩ := hwf
  refine ⟨⟨h1, hS, ?_⟩, ?_, rfl, rfl, rfl, rfl⟩
  · simp only [hlen]; exact hT
  · have hnat : d0.ndim.toNat = n + 1 := by omega
    simp only [is_contiguous, dims, hnat]
    exact malloc_contiguous _ _ _ n (by omega) (by omega) hlast hrel

theorem shapes_equal_of_fields (a b c : BFarray) (hn : a.ndim = b.ndim)
    (hs : a.shape = b.shape) (h : shapes_equal b c = true) : shapes_equal a c = true := by
  simp only [shapes_equal, Bool.and_eq_true, beq_iff_eq] at h ⊢
  rw [hn, hs]; exact h

/-! ## Lemmas on the layout reduction and the dispatch -/

theorem squeezeDims_length_le : ∀ l : List (Int × Int), (squeezeDims l).length ≤ l.length := by
  intro l
  induction l with
  | nil => simp [squeezeDims]
  | cons p rest ih =>
      simp only [squeezeDims]
      cases h : squeezeDims rest with
      | nil => simp
      | cons q out =>
          rw [h] at ih
          simp only [List.length_cons] at ih ⊢
          split_ifs <;> simp only [List.length_cons] <;> omega

theorem squeezeDims_prod : ∀ l : List (Int × Int),
    ((squeezeDims l).map Prod.fst).prod = (l.map Prod.fst).prod := by
  intro l
  induction l with
  | nil => simp [squeezeDims]
  | cons p rest ih =>
      simp only [squeezeDims]
      cases h : squeezeDims rest with
      | nil =>
          rw [h] at ih
          simp only [List.map_nil, List.prod_nil] at ih
          simp [← ih]
      | cons q out =>
          rw [h] at ih
          simp only [List.map_cons, List.prod_cons] at ih ⊢
          split_ifs
          · simp only [List.map_cons, List.prod_cons]; rw [← ih]; ring
          · simp only [List.map_cons, List.prod_cons]; rw [← ih]

theorem squeezeDims_nonneg : ∀ l : List (Int × Int), (∀ p ∈ l, 0 ≤ p.1) →
    ∀ p ∈ squeezeDims l, 0 ≤ p.1 := by
  intro l
  induction l with
  | nil => intro _ p hp; simp [squeezeDims] at hp
  | cons p rest ih =>
      intro hl
      have hp0 : 0 ≤ p.1 := hl p (by simp)
      have hrest := ih (fun x hx => hl x (by simp [hx]))
      simp only [squeezeDims]
      cases h : squeezeDims rest with
      | nil => intro x hx; simp at hx; rw [hx]; exact hp0
      | cons q out =>
          rw [h] at hrest
          have hq0 : 0 ≤ q.1 := hrest q (by simp)
          dsimp only
          split_ifs
          · intro x hx
            simp only [List.mem_cons] at hx
            rcases hx with hx | hx
            · rw [hx]; exact mul_nonneg hp0 hq0
            · exact hrest x (by simp [hx])
          · intro x hx
            simp only [List.mem_cons] at hx
            rcases hx with hx | hx | hx
            · rw [hx]; exact hp0
            · rw [hx]; exact hq0
            · exact hrest x (by simp [hx])

theorem range_mul_flatMap {β : Type} (b : Nat) (f : Nat → List β) : ∀ a : Nat,
    (List.range (a * b)).flatMap f =
      (List.range a).flatMap fun i => (List.range b).flatMap fun j => f (i * b + j) := by
  intro a
  induction a with
  | zero => simp
  | succ a ih =>
      rw [Nat.succ_mul, List.range_add, List.flatMap_append, ih, List.range_succ,
        List.flatMap_append, List.flatMap_map]
      simp

theorem elementOffsets_squeeze : ∀ l : List (Int × Int), (∀ p ∈ l, 0 ≤ p.1) →
    elementOffsets (squeezeDims l) = elementOffsets l := by
  intro l
  induction l with
  | nil => intro _; rfl
  | cons p rest ih =>
      intro hl
      have hp0 : 0 ≤ p.1 := hl p (by simp)
      have hrest : ∀ x ∈ rest, 0 ≤ x.1 := fun x hx => hl x (by simp [hx])
      have ih' := ih hrest
      have hnn := squeezeDims_nonneg rest hrest
      simp only [squeezeDims]
      cases h : squeezeDims rest with
      | nil =>
          rw [h] at ih'
          simp only [elementOffsets]
          rw [← ih']
          simp [elementOffsets]
      | cons q out =>
          rw [h] at ih' hnn
          have hq0 : 0 ≤ q.1 := hnn q (by simp)
          dsimp only
          split_ifs with hm
          · obtain ⟨a, ha⟩ : ∃ a : Nat, p.1 = (a : Int) := ⟨p.1.toNat, by omega⟩
            obtain ⟨b, hb⟩ : ∃ b : Nat, q.1 = (b : Int) := ⟨q.1.toNat, by omega⟩
            have hab : (p.1 * q.1).toNat = a * b := by
              rw [ha, hb, ← Nat.cast_mul]; exact Int.toNat_ofNat _
            simp only [elementOffsets] at ih' ⊢
            rw [← ih', hab, range_mul_flatMap, ha, hb, hm, hb]
            simp only [Int.toNat_ofNat, List.map_flatMap, List.map_map]
            congr 1
            funext i
            congr 1
            funext j
            congr 1
            funext o
            simp only [Function.comp]
            push_cast
            ring
          · simp only [elementOffsets] at ih' ⊢
            rw [← ih']

theorem dims_fst_nonneg (a : BFarray) (hnn : ∀ n ∈ a.shape.take a.ndim.toNat, 0 ≤ n) :
    ∀ p ∈ dims a, 0 ≤ p.1 := by
  intro p hp
  have := List.of_mem_zip (show (p.1, p.2) ∈ _ from hp)
  exact hnn p.1 this.1

theorem bfArrayCopy_eq_dispatch (E : Externals) (dst src : BFarray)
    (hshape : shapes_equal dst src = true) (hdtype : dst.dtype = src.dtype) :
    bfArrayCopy E (some dst) (some src) =
      copyDispatch E (copyOperands dst src).1 (copyOperands dst src).2 := by
  simp only [bfArrayCopy, hshape, hdtype, copyOperands, ne_eq, not_true_eq_false, if_false,
    Bool.true_eq_false]
  split_ifs <;> rfl

theorem copyOperands_fields (dst src : BFarray) :
    (copyOperands dst src).1.data = dst.data ∧ (copyOperands dst src).1.space = dst.space ∧
    (copyOperands dst src).1.dtype = dst.dtype ∧
    (copyOperands dst src).2.data = src.data ∧ (copyOperands dst src).2.space = src.space ∧
    (copyOperands dst src).2.dtype = src.dtype := by
  simp only [copyOperands]
  split_ifs <;> simp [squeeze_contiguous_dims]

theorem squeeze_wf (a : BFarray) (h : 1 ≤ (squeeze_contiguous_dims a).ndim) :
    (squeeze_contiguous_dims a).wf := by
  refine ⟨h, ?_, ?_⟩ <;> simp [squeeze_contiguous_dims]

theorem copyOperands_wf (dst src : BFarray) (hd : dst.wf) (hs : src.wf)
    (hrank : 1 ≤ (copyOperands dst src).1.ndim) :
    (copyOperands dst src).1.wf ∧ (copyOperands dst src).2.wf ∧
      ((copyOperands dst src).1.ndim = dst.ndim ∨
        (copyOperands dst src).2.ndim = (copyOperands dst src).1.ndim) := by
  unfold copyOperands at hrank ⊢
  by_cases hsq : shapes_equal (squeeze_contiguous_dims dst) (squeeze_contiguous_dims src) = true
  · simp only [hsq, if_true] at hrank ⊢
    have hn := shapes_equal_ndim _ _ hsq
    exact ⟨squeeze_wf dst hrank, squeeze_wf src (by rw [← hn]; exact hrank), Or.inr hn.symm⟩
  · simp only [hsq, if_false] at hrank ⊢
    exact ⟨hd, hs, Or.inl rfl⟩

theorem copyDispatch_rank1 (E : Externals) (d s : BFarray) (n dp sp : Int)
    (hrank : d.ndim = 1)
    (hnc : (is_contiguous E s && is_contiguous E d) = false)
    (hn : rd d.shape 0 = some n) (hdp : rd d.strides 0 = some dp)
    (hsp : rd s.strides 0 = some sp) :
    copyDispatch E d s =
      some ⟨E.bfMemcpy2D d.data dp d.space s.data sp s.space (E.element_size s.dtype) n,
            [Call.bfMemcpy2D d.data dp d.space s.data sp s.space (E.element_size s.dtype) n]⟩ := by
  simp [copyDispatch, hnc, hrank, hn, hdp, hsp, BF_DTYPE_NBYTE]

theorem mem_transferPlan_2D (dst dsp src ssp : Nat) (dp sp w h i k : Int)
    (hi0 : 0 ≤ i) (hi : i < h) (hk0 : 0 ≤ k) (hk : k < w) :
    (i * dp + k, i * sp + k) ∈ (Call.bfMemcpy2D dst dp dsp src sp ssp w h).transferPlan := by
  obtain ⟨a, rfl⟩ : ∃ a : Nat, i = (a : Int) := ⟨i.toNat, by omega⟩
  obtain ⟨b, rfl⟩ : ∃ b : Nat, k = (b : Int) := ⟨k.toNat, by omega⟩
  have h1 : a < h.toNat := by omega
  have h2 : b < w.toNat := by omega
  simp only [Call.transferPlan]
  exact List.mem_flatMap.2 ⟨a, List.mem_range.2 h1,
    List.mem_map.2 ⟨b, List.mem_range.2 h2, rfl⟩⟩

theorem shapes_equal_refl (a : BFarray) : shapes_equal a a = true := by
  simp [shapes_equal]

theorem bfArrayCopy_self (E : Externals) (d : BFarray) :
    bfArrayCopy E (some d) (some d) =
      copyDispatch E (squeeze_contiguous_dims d) (squeeze_contiguous_dims d) := by
  rw [bfArrayCopy_eq_dispatch E d d (shapes_equal_refl d) rfl]
  simp [copyOperands, shapes_equal_refl]

theorem bfArrayMemset_in_range (E : Externals) (d : BFarray) (value : Int)
    (h0 : 0 ≤ value) (h255 : value ≤ 255) :
    bfArrayMemset E (some d) value = memsetDispatch E (squeeze_contiguous_dims d) value := by
  have hmod : value % 256 = value := Int.emod_eq_of_lt h0 (by omega)
  simp [bfArrayMemset, hmod]

theorem dispatch_correspondence (E : Externals) (x : BFarray) (value : Int) :
    (∀ n, (∃ st, copyDispatch E x x =
          some ⟨st, [Call.bfMemcpy x.data x.space x.data x.space n]⟩) ↔
        (∃ st, memsetDispatch E x value =
          some ⟨st, [Call.bfMemset x.data x.space value n]⟩)) ∧
    (∀ p w r, (∃ st, copyDispatch E x x =
          some ⟨st, [Call.bfMemcpy2D x.data p x.space x.data p x.space w r]⟩) ↔
        (∃ st, memsetDispatch E x value =
          some ⟨st, [Call.bfMemset2D x.data p x.space value w r]⟩)) ∧
    (copyDispatch E x x = some ⟨.BF_STATUS_UNSUPPORTED, []⟩ ↔
      memsetDispatch E x value = some ⟨.BF_STATUS_UNSUPPORTED, []⟩) ∧
    (copyDispatch E x x = none ↔ memsetDispatch E x value = none) := by
  unfold copyDispatch memsetDispatch
  by_cases hc : is_contiguous E x = true
  · simp only [hc, Bool.and_self, if_true]
    cases h1 : rd x.strides 0 <;> cases h2 : rd x.shape 0 <;> simp
  · have hc' : is_contiguous E x = false := by simpa using hc
    simp only [hc', Bool.and_self, Bool.false_eq_true, if_false]
    by_cases hn : x.ndim = 1 ∨ x.ndim = 2
    · simp only [hn, if_true]
      cases h0 : (if x.ndim = 2 then rd x.shape 1 else some 1) <;>
        cases h1 : rd x.strides 0 <;> cases h2 : rd x.shape 0 <;> simp
    · simp [hn]

/-! ## Lemmas on the member accesses of `bfArrayMalloc` -/

theorem strideLoopAccesses_index (k : Nat) :
    ∀ acc ∈ strideLoopAccesses k, 0 ≤ acc.index ∧ acc.index ≤ (k : Int) := by
  induction k with
  | zero => intro acc h; simp [strideLoopAccesses] at h
  | succ k ih =>
      intro acc h
      simp only [strideLoopAccesses, List.cons_append, List.nil_append, List.mem_cons] at h
      rcases h with h | h | h | h
      · subst h; simp only [Access.index]; omega
      · subst h; simp only [Access.index]; omega
      · subst h; simp only [Access.index]; omega
      · have := ih acc h
        omega

theorem strideLoopAccesses_written (k : Nat) :
    (strideLoopAccesses k).filterMap Access.written
      = (List.range k).reverse.map fun (j : Nat) => (j : Int) := by
  induction k with
  | zero => rfl
  | succ k ih =>
      simp only [strideLoopAccesses, List.cons_append, List.nil_append]
      rw [List.range_succ, List.reverse_append]
      simp [List.filterMap_cons, Access.written, ih]

theorem strideLoopAccesses_length (k : Nat) : (strideLoopAccesses k).length = 3 * k := by
  induction k with
  | zero => rfl
  | succ k ih => simp only [strideLoopAccesses, List.length_append, List.length_cons,
      List.length_nil, ih]; omega

theorem strideLoop_defined_iff (shape : List Int) : ∀ (k : Nat) (strides : List Int),
    (strideLoop shape k strides ≠ none) ↔
      (k = 0 ∨ (k < strides.length ∧ k < shape.length)) := by
  intro k
  induction k with
  | zero => intro strides; simp [strideLoop]
  | succ k ih =>
      intro strides
      constructor
      · intro h
        refine Or.inr ?_
        by_contra hb
        apply h
        by_cases h1 : k + 1 < strides.length
        · have h2 : ¬ k + 1 < shape.length := fun h2 => hb ⟨h1, h2⟩
          have hn : shape[k + 1]? = none := List.getElem?_eq_none (by omega)
          cases hs : strides[k + 1]? <;> simp [strideLoop, rd_natCast_succ, hs, hn]
        · have hn : strides[k + 1]? = none := List.getElem?_eq_none (by omega)
          simp [strideLoop, rd_natCast_succ, hn]
      · rintro (h | ⟨h1, h2⟩)
        · omega
        · obtain ⟨r, hr, _⟩ := strideLoop_spec shape (k + 1) strides h1 h2
          rw [hr]; simp

theorem strideLoopAccesses_inBounds_iff (sc tc : Nat) (k : Nat) :
    (∀ acc ∈ strideLoopAccesses k, acc.inBounds sc tc = true) ↔
      (k = 0 ∨ (k < tc ∧ k < sc)) := by
  constructor
  · intro h
    cases k with
    | zero => exact Or.inl rfl
    | succ k =>
        refine Or.inr ⟨?_, ?_⟩
        · have := h (.readStrides ((k : Int) + 1)) (by simp [strideLoopAccesses])
          simp only [Access.inBounds, decide_eq_true_eq] at this
          omega
        · have := h (.readShape ((k : Int) + 1)) (by simp [strideLoopAccesses])
          simp only [Access.inBounds, decide_eq_true_eq] at this
          omega
  · intro h acc hacc
    have hidx := strideLoopAccesses_index k acc hacc
    have hk : k ≠ 0 := by
      intro h0; subst h0; simp [strideLoopAccesses] at hacc
    rcases h with h | ⟨h1, h2⟩
    · exact absurd h hk
    · cases acc <;> simp only [Access.inBounds, Access.index, decide_eq_true_eq] at hidx ⊢ <;> omega

theorem bfArrayMalloc_unfold (E : Externals) (a : BFarray) :
    bfArrayMalloc E (some a) =
      (wr a.strides (a.ndim - 1) (get_dtype_nbyte E a.dtype)).bind fun s =>
        (strideLoop a.shape (a.ndim - 1).toNat s).bind fun r =>
          (rd r 0).bind fun s0 =>
            (rd a.shape 0).bind fun n0 =>
              some ⟨(E.bfMalloc a.data (s0 * n0) a.space).1,
                    [Call.bfMalloc (s0 * n0) a.space],
                    some { a with
                           strides := r
                           data := (E.bfMalloc a.data (s0 * n0) a.space).2 }⟩ :=
  rfl

theorem strideLoop_length (shape : List Int) (k : Nat) (strides r : List Int)
    (h : strideLoop shape k strides = some r) : r.length = strides.length := by
  have hd := (strideLoop_defined_iff shape k strides).1 (by rw [h]; simp)
  rcases hd with h0 | ⟨h1, h2⟩
  · subst h0
    simp only [strideLoop, Option.some.injEq] at h
    rw [h]
  · obtain ⟨r2, hr2, hlen2, _⟩ := strideLoop_spec shape k strides h1 h2
    rw [h] at hr2
    simp only [Option.some.injEq] at hr2
    rw [hr2, hlen2]

theorem bfArrayMalloc_defined_iff (E : Externals) (a : BFarray) :
    (bfArrayMalloc E (some a) ≠ none) ↔
      ∀ acc ∈ bfArrayMallocAccesses a.ndim,
        acc.inBounds a.shape.length a.strides.length = true := by
  rw [bfArrayMalloc_unfold]
  unfold bfArrayMallocAccesses
  obtain ⟨k, hk⟩ : ∃ k, (a.ndim - 1).toNat = k := ⟨_, rfl⟩
  rw [hk]
  have hacc : (∀ acc ∈ [Access.writeStrides (a.ndim - 1)] ++ strideLoopAccesses k
        ++ [Access.readStrides 0, Access.readShape 0],
        acc.inBounds a.shape.length a.strides.length = true) ↔
      ((0 ≤ a.ndim - 1 ∧ a.ndim - 1 < (a.strides.length : Int)) ∧
        (k = 0 ∨ (k < a.strides.length ∧ k < a.shape.length)) ∧
        0 < a.strides.length ∧ 0 < a.shape.length) := by
    rw [← strideLoopAccesses_inBounds_iff a.shape.length a.strides.length k]
    simp only [List.mem_append, List.mem_cons, List.mem_singleton, List.not_mem_nil, or_false]
    constructor
    · intro h
      refine ⟨?_, fun acc hacc => h acc (Or.inl (Or.inr hacc)), ?_, ?_⟩
      · simpa [Access.inBounds] using h _ (Or.inl (Or.inl rfl))
      · simpa [Access.inBounds] using h _ (Or.inr (Or.inl rfl))
      · simpa [Access.inBounds] using h _ (Or.inr (Or.inr rfl))
    · rintro ⟨h1, h2, h3, h4⟩ acc ((hacc | hacc) | hacc | hacc)
      · subst hacc; simpa [Access.inBounds] using h1
      · exact h2 acc hacc
      · subst hacc; simpa [Access.inBounds] using h3
      · subst hacc; simpa [Access.inBounds] using h4
  rw [hacc]
  by_cases hw : 0 ≤ a.ndim - 1 ∧ (a.ndim - 1).toNat < a.strides.length
  · have hwr : wr a.strides (a.ndim - 1) (get_dtype_nbyte E a.dtype)
        = some (a.strides.set k (get_dtype_nbyte E a.dtype)) := by
      unfold wr; rw [if_pos hw, hk]
    rw [hwr, Option.some_bind]
    have hw' : 0 ≤ a.ndim - 1 ∧ a.ndim - 1 < (a.strides.length : Int) := by omega
    have hpos : 0 < a.strides.length := by omega
    cases hl : strideLoop a.shape k (a.strides.set k (get_dtype_nbyte E a.dtype)) with
    | none =>
        have hnd := (strideLoop_defined_iff a.shape k _).not.1 (by rw [hl]; simp)
        simp only [List.length_set] at hnd
        simp only [Option.none_bind, ne_eq, not_true_eq_false, false_iff]
        rintro ⟨_, h2, _⟩
        exact hnd h2
    | some r =>
        have hd := (strideLoop_defined_iff a.shape k _).1 (by rw [hl]; simp)
        simp only [List.length_set] at hd
        have hlen := strideLoop_length _ _ _ _ hl
        simp only [List.length_set] at hlen
        have hr0 : 0 < r.length := by omega
        obtain ⟨s0, hs0⟩ : ∃ s0, rd r 0 = some s0 :=
          ⟨r[0], by rw [rd_zero]; exact List.getElem?_eq_getElem hr0⟩
        rw [Option.some_bind, hs0, Option.some_bind]
        by_cases hsh : 0 < a.shape.length
        · obtain ⟨n0, hn0⟩ : ∃ n0, rd a.shape 0 = some n0 :=
            ⟨a.shape[0], by rw [rd_zero]; exact List.getElem?_eq_getElem hsh⟩
          rw [hn0, Option.some_bind]
          simp only [ne_eq, reduceCtorEq, not_false_eq_true, true_iff]
          exact ⟨hw', hd, hpos, hsh⟩
        · have hn0 : rd a.shape 0 = none := by
            rw [rd_zero]; exact List.getElem?_eq_none (by omega)
          rw [hn0, Option.none_bind]
          simp only [ne_eq, not_true_eq_false, false_iff]
          rintro ⟨_, _, _, h4⟩
          exact hsh h4
  · have hwr : wr a.strides (a.ndim - 1) (get_dtype_nbyte E a.dtype) = none := by
      unfold wr; rw [if_neg hw]
    rw [hwr, Option.none_bind]
    simp only [ne_eq, not_true_eq_false, false_iff]
    rintro ⟨h1, _, _, _⟩
    exact hw (by omega)

theorem strideLoopTraced_strides (shape : List Int) : ∀ (k : Nat) (strides : List Int),
    (strideLoopTraced shape k strides).strides = strideLoop shape k strides := by
  intro k
  induction k with
  | zero => intro strides; rfl
  | succ k ih =>
      intro strides
      cases h1 : rd strides ((k : Int) + 1) with
      | none => simp [strideLoopTraced, strideLoop, h1]
      | some s =>
          cases h2 : rd shape ((k : Int) + 1) with
          | none => simp [strideLoopTraced, strideLoop, h1, h2]
          | some n =>
              cases h3 : wr strides (k : Int) (s * n) with
              | none => simp [strideLoopTraced, strideLoop, h1, h2, h3]
              | some strides2 =>
                  simp [strideLoopTraced, strideLoop, h1, h2, h3, ih]

theorem strideLoopTraced_defined (shape : List Int) : ∀ (k : Nat) (strides : List Int),
    (k = 0 ∨ (k < strides.length ∧ k < shape.length)) →
    (strideLoopTraced shape k strides).accesses = strideLoopAccesses k ∧
    (strideLoopTraced shape k strides).iterations = k := by
  intro k
  induction k with
  | zero => intro strides _; exact ⟨rfl, rfl⟩
  | succ k ih =>
      intro strides h
      rcases h with h | ⟨h1, h2⟩
      · omega
      · obtain ⟨s, hs⟩ : ∃ s, rd strides ((k : Int) + 1) = some s :=
          ⟨strides[k + 1], by rw [rd_natCast_succ]; exact List.getElem?_eq_getElem h1⟩
        obtain ⟨n, hn⟩ : ∃ n, rd shape ((k : Int) + 1) = some n :=
          ⟨shape[k + 1], by rw [rd_natCast_succ]; exact List.getElem?_eq_getElem h2⟩
        have hk : k < strides.length := by omega
        have hw := wr_natCast strides k (s * n) hk
        have hrec := ih (strides.set k (s * n))
          (Or.inr ⟨by simpa using hk, by omega⟩)
        simp [strideLoopTraced, hs, hn, hw, strideLoopAccesses, hrec.1, hrec.2]

theorem bfArrayMallocTraced_outcome (E : Externals) (oa : Option BFarray) :
    (bfArrayMallocTraced E oa).outcome = bfArrayMalloc E oa := by
  cases oa with
  | none => rfl
  | some a =>
      rw [bfArrayMalloc_unfold]
      simp only [bfArrayMallocTraced]
      cases h1 : wr a.strides (a.ndim - 1) (get_dtype_nbyte E a.dtype) with
      | none => rfl
      | some strides =>
          simp only [Option.some_bind, ← strideLoopTraced_strides]
          cases h2 : (strideLoopTraced a.shape (a.ndim - 1).toNat strides).strides with
          | none => rfl
          | some r =>
              simp only [Option.some_bind]
              cases h3 : rd r 0 with
              | none => rfl
              | some s0 =>
                  simp only [Option.some_bind]
                  cases h4 : rd a.shape 0 with
                  | none => rfl
                  | some n0 => rfl

theorem bfArrayMallocTraced_wf (E : Externals) (a : BFarray) (hwf : a.wf) :
    (bfArrayMallocTraced E (some a)).accesses = bfArrayMallocAccesses a.ndim ∧
    (bfArrayMallocTraced E (some a)).iterations = (a.ndim - 1).toNat := by
  obtain ⟨h1, hS, hT⟩ := hwf
  obtain ⟨k, hk⟩ : ∃ k, (a.ndim - 1).toNat = k := ⟨_, rfl⟩
  have hkS : k < a.shape.length := by omega
  have hkT : k < a.strides.length := by omega
  have hw : wr a.strides (a.ndim - 1) (get_dtype_nbyte E a.dtype)
      = some (a.strides.set k (get_dtype_nbyte E a.dtype)) := by
    have hd : a.ndim - 1 = (k : Int) := by omega
    rw [hd]; exact wr_natCast _ _ _ hkT
  obtain ⟨hacc, hit⟩ := strideLoopTraced_defined a.shape k
    (a.strides.set k (get_dtype_nbyte E a.dtype)) (Or.inr ⟨by simpa using hkT, hkS⟩)
  obtain ⟨r, hr, hlen, _⟩ := strideLoop_spec a.shape k
    (a.strides.set k (get_dtype_nbyte E a.dtype)) (by simpa using hkT) hkS
  have hrs := strideLoopTraced_strides a.shape k (a.strides.set k (get_dtype_nbyte E a.dtype))
  rw [hr] at hrs
  have hr0 : 0 < r.length := by rw [hlen]; simp; omega
  have hs0 : 0 < a.shape.length := by omega
  have e1 : rd r 0 = some r[0] := by rw [rd_zero]; exact List.getElem?_eq_getElem hr0
  have e2 : rd a.shape 0 = some a.shape[0] := by
    rw [rd_zero]; exact List.getElem?_eq_getElem hs0
  unfold bfArrayMallocTraced bfArrayMallocAccesses
  simp [hw, hk, hrs, e1, e2, hacc, hit]

/-! ## The claims -/

/-- C1: for every descriptor with `ndim ≥ 1` (within the capacity of its
members), every shape and every dtype, `bfArrayMalloc` returns and leaves a
descriptor with `strides[ndim-1] == element_size(dtype)` and
`strides[d] == strides[d+1] * shape[d+1]` for every `0 ≤ d < ndim-1`; rank,
shape and dtype are untouched. -/
theorem bfArrayMalloc_strides (E : Externals) (array : BFarray) (hwf : array.wf) :
    ∃ out a, bfArrayMalloc E (some array) = some out ∧ out.array = some a ∧
      a.ndim = array.ndim ∧ a.shape = array.shape ∧ a.dtype = array.dtype ∧
      rd a.strides (a.ndim - 1) = some (get_dtype_nbyte E a.dtype) ∧
      ∀ d : Int, 0 ≤ d → d < a.ndim - 1 →
        ∃ s n, rd a.strides (d + 1) = some s ∧ rd a.shape (d + 1) = some n ∧
          rd a.strides d = some (s * n) := by
  obtain ⟨r, n, hn, _, hlast, hrel, s0, n0, _, _, hrun⟩ := bfArrayMalloc_run E array hwf
  refine ⟨_, _, hrun, rfl, rfl, rfl, rfl, ?_, ?_⟩
  · have hd : array.ndim - 1 = (n : Int) := by omega
    simp only [hd, rd_natCast]
    exact hlast
  · intro d hd0 hd1
    obtain ⟨j, hj⟩ : ∃ j : Nat, d = (j : Int) := ⟨d.toNat, by omega⟩
    subst hj
    simp only [rd_natCast, rd_natCast_succ]
    exact hrel j (by simp only at hd1; omega)

theorem bfArrayMalloc_strides_witness :
    (mkArray 0 [2, 3, 4] [0, 0, 0]).wf ∧
    ∃ out a, bfArrayMalloc okExternals (some (mkArray 0 [2, 3, 4] [0, 0, 0])) = some out ∧
      out.array = some a ∧
      a.ndim = (mkArray 0 [2, 3, 4] [0, 0, 0]).ndim ∧
      a.shape = (mkArray 0 [2, 3, 4] [0, 0, 0]).shape ∧
      a.dtype = (mkArray 0 [2, 3, 4] [0, 0, 0]).dtype ∧
      rd a.strides (a.ndim - 1) = some (get_dtype_nbyte okExternals a.dtype) ∧
      ∀ d : Int, 0 ≤ d → d < a.ndim - 1 →
        ∃ s n, rd a.strides (d + 1) = some s ∧ rd a.shape (d + 1) = some n ∧
          rd a.strides d = some (s * n) :=
  ⟨by decide, bfArrayMalloc_strides okExternals (mkArray 0 [2, 3, 4] [0, 0, 0]) (by decide)⟩

/-- C2: for every descriptor with `ndim ≥ 1`, `bfArrayMalloc` issues exactly
one allocator request, in the descriptor's own space, of
`strides[0] * shape[0]` bytes computed from the strides it has just derived;
this number is `element_size(dtype)` times the product of
`shape[0..ndim-1]`, and the allocator's status is what the call returns. -/
theorem bfArrayMalloc_request (E : Externals) (array : BFarray) (hwf : array.wf) :
    ∃ out a s0 n0, bfArrayMalloc E (some array) = some out ∧ out.array = some a ∧
      rd a.strides 0 = some s0 ∧ rd a.shape 0 = some n0 ∧
      out.calls = [Call.bfMalloc (s0 * n0) array.space] ∧
      out.status = (E.bfMalloc array.data (s0 * n0) array.space).1 ∧
      s0 * n0 = get_dtype_nbyte E array.dtype * (array.shape.take array.ndim.toNat).prod := by
  obtain ⟨r, n, hn, hlen, hlast, hrel, s0, n0, hs0, hn0, hrun⟩ := bfArrayMalloc_run E array hwf
  obtain ⟨h1, hshape, hstrides⟩ := hwf
  refine ⟨_, _, s0, n0, hrun, rfl, ?_, ?_, rfl, rfl, ?_⟩
  · simpa only [rd_zero] using hs0
  · simpa only [rd_zero] using hn0
  · have hc := malloc_contiguous (get_dtype_nbyte E array.dtype) array.shape r n
      (by omega) (by omega) hlast hrel
    have hnat : array.ndim.toNat = n + 1 := by omega
    obtain ⟨ts, hts⟩ : ∃ ts, array.shape.take (n + 1) = n0 :: ts := by
      refine ⟨(array.shape.take (n + 1)).tail, ?_⟩
      cases hsh : array.shape with
      | nil => rw [hsh] at hn0; simp at hn0
      | cons x xs => rw [hsh] at hn0; simp at hn0; simp [hn0]
    obtain ⟨tr, htr⟩ : ∃ tr, r.take (n + 1) = s0 :: tr := by
      refine ⟨(r.take (n + 1)).tail, ?_⟩
      cases hsh : r with
      | nil => rw [hsh] at hs0; simp at hs0
      | cons x xs => rw [hsh] at hs0; simp at hs0; simp [hs0]
    have hl1 : (array.shape.take (n + 1)).length = n + 1 := by simp; omega
    have hl2 : (r.take (n + 1)).length = n + 1 := by simp; omega
    have hmap : ((array.shape.take (n + 1)).zip (r.take (n + 1))).map Prod.fst
        = array.shape.take (n + 1) := List.map_fst_zip _ _ (by omega)
    rw [hnat, ← hmap]
    rw [hts, htr] at hc ⊢
    simp only [List.zip_cons_cons] at hc ⊢
    exact contiguousDims_head_mul _ _ _ hc

theorem bfArrayMalloc_request_witness :
    (mkArray 0 [2, 3, 4] [0, 0, 0]).wf ∧
    ∃ out a s0 n0, bfArrayMalloc okExternals (some (mkArray 0 [2, 3, 4] [0, 0, 0])) = some out ∧
      out.array = some a ∧
      rd a.strides 0 = some s0 ∧ rd a.shape 0 = some n0 ∧
      out.calls = [Call.bfMalloc (s0 * n0) (mkArray 0 [2, 3, 4] [0, 0, 0]).space] ∧
      out.status = (okExternals.bfMalloc (mkArray 0 [2, 3, 4] [0, 0, 0]).data (s0 * n0)
        (mkArray 0 [2, 3, 4] [0, 0, 0]).space).1 ∧
      s0 * n0 = get_dtype_nbyte okExternals (mkArray 0 [2, 3, 4] [0, 0, 0]).dtype *
        ((mkArray 0 [2, 3, 4] [0, 0, 0]).shape.take
          (mkArray 0 [2, 3, 4] [0, 0, 0]).ndim.toNat).prod :=
  ⟨by decide, bfArrayMalloc_request okExternals (mkArray 0 [2, 3, 4] [0, 0, 0]) (by decide)⟩

/-- C3: for every pair of present descriptors whose shapes differ (different
`ndim`, or some `shape[i]` with `0 ≤ i < ndim` different), `bfArrayCopy`
returns `BF_STATUS_INVALID_SHAPE` without invoking a primitive, whatever the
dtypes and strides are; so the shape check wins over the dtype check. -/
theorem bfArrayCopy_invalid_shape (E : Externals) (dst src : BFarray)
    (h : dst.ndim ≠ src.ndim ∨
      ∃ i : Int, 0 ≤ i ∧ i < dst.ndim ∧ rd dst.shape i ≠ rd src.shape i) :
    bfArrayCopy E (some dst) (some src) = some ⟨.BF_STATUS_INVALID_SHAPE, []⟩ := by
  have hne : shapes_equal dst src = false := by
    cases hse : shapes_equal dst src with
    | false => rfl
    | true =>
        obtain ⟨hn, hi⟩ := (shapes_equal_iff dst src).1 hse
        rcases h with h | ⟨i, h0, h1, h2⟩
        · exact absurd hn h
        · exact absurd (hi i h0 h1) h2
  simp [bfArrayCopy, hne]

theorem bfArrayCopy_invalid_shape_witness :
    ((mkArray 0 [2, 3] [12, 4]).ndim ≠ ({ mkArray 8 [2, 5] [20, 4] with dtype := 1 }).ndim ∨
      ∃ i : Int, 0 ≤ i ∧ i < (mkArray 0 [2, 3] [12, 4]).ndim ∧
        rd (mkArray 0 [2, 3] [12, 4]).shape i
          ≠ rd ({ mkArray 8 [2, 5] [20, 4] with dtype := 1 }).shape i) ∧
    bfArrayCopy okExternals (some (mkArray 0 [2, 3] [12, 4]))
      (some { mkArray 8 [2, 5] [20, 4] with dtype := 1 })
      = some ⟨.BF_STATUS_INVALID_SHAPE, []⟩ :=
  ⟨Or.inr ⟨1, by decide, by decide, by decide⟩,
   bfArrayCopy_invalid_shape okExternals (mkArray 0 [2, 3] [12, 4])
     { mkArray 8 [2, 5] [20, 4] with dtype := 1 }
     (Or.inr ⟨1, by decide, by decide, by decide⟩)⟩

/-- C4: for every pair of present, shape-equal descriptors with different
dtypes, `bfArrayCopy` returns `BF_STATUS_INVALID_DTYPE`, whatever the strides
are, and no transfer primitive is invoked. -/
theorem bfArrayCopy_invalid_dtype (E : Externals) (dst src : BFarray)
    (hshape : shapes_equal dst src = true) (hdtype : dst.dtype ≠ src.dtype) :
    bfArrayCopy E (some dst) (some src) = some ⟨.BF_STATUS_INVALID_DTYPE, []⟩ := by
  simp [bfArrayCopy, hshape, hdtype]

theorem bfArrayCopy_invalid_dtype_witness :
    (shapes_equal (mkArray 0 [2, 3] [12, 4]) { mkArray 8 [2, 3] [40, 8] with dtype := 1 } = true ∧
      (mkArray 0 [2, 3] [12, 4]).dtype ≠ ({ mkArray 8 [2, 3] [40, 8] with dtype := 1 }).dtype) ∧
    bfArrayCopy okExternals (some (mkArray 0 [2, 3] [12, 4]))
      (some { mkArray 8 [2, 3] [40, 8] with dtype := 1 })
      = some ⟨.BF_STATUS_INVALID_DTYPE, []⟩ :=
  ⟨⟨by decide, by decide⟩,
   bfArrayCopy_invalid_dtype okExternals (mkArray 0 [2, 3] [12, 4])
     { mkArray 8 [2, 3] [40, 8] with dtype := 1 } (by decide) (by decide)⟩

/-- C6: for every pair of shape-equal, same-dtype descriptors that are both
fully contiguous, `bfArrayCopy` issues exactly one bulk transfer (`bfMemcpy`)
and no strided transfer, from `src.data` in `src.space` to `dst.data` in
`dst.space`, of `dst.strides[0] * dst.shape[0]` bytes, which is
`element_size` times the product of the shape; its status is the
primitive's. -/
theorem bfArrayCopy_contiguous (E : Externals) (dst src : BFarray)
    (hd : dst.wf) (hs : src.wf) (hshape : shapes_equal dst src = true)
    (hdtype : dst.dtype = src.dtype)
    (hcd : is_contiguous E dst = true) (hcs : is_contiguous E src = true) :
    ∃ s0 n0, rd dst.strides 0 = some s0 ∧ rd dst.shape 0 = some n0 ∧
      s0 * n0 = E.element_size dst.dtype * (dst.shape.take dst.ndim.toNat).prod ∧
      bfArrayCopy E (some dst) (some src) =
        some ⟨E.bfMemcpy dst.data dst.space src.data src.space (s0 * n0),
              [Call.bfMemcpy dst.data dst.space src.data src.space (s0 * n0)]⟩ := by
  obtain ⟨n0, s0, rest, hn0, hs0, hdims, hmap⟩ := dims_head dst hd
  have hmul : s0 * n0 = E.element_size dst.dtype * (dst.shape.take dst.ndim.toNat).prod := by
    have hc : contiguousDims (E.element_size dst.dtype) ((n0, s0) :: rest) = true := by
      rw [← hdims]; exact hcd
    have := contiguousDims_head_mul _ _ _ hc
    rw [← hdims, hmap] at this
    exact this
  refine ⟨s0, n0, hs0, hn0, hmul, ?_⟩
  rw [hmul]
  exact copy_contiguous_core E dst src hd hs hshape hdtype hcd hcs

theorem bfArrayCopy_contiguous_witness :
    ((mkArray 0 [4, 5] [20, 4]).wf ∧ (mkArray 512 [4, 5] [20, 4]).wf ∧
      shapes_equal (mkArray 0 [4, 5] [20, 4]) (mkArray 512 [4, 5] [20, 4]) = true ∧
      is_contiguous okExternals (mkArray 0 [4, 5] [20, 4]) = true ∧
      is_contiguous okExternals (mkArray 512 [4, 5] [20, 4]) = true) ∧
    (∃ s0 n0, rd (mkArray 0 [4, 5] [20, 4]).strides 0 = some s0 ∧
      rd (mkArray 0 [4, 5] [20, 4]).shape 0 = some n0 ∧
      s0 * n0 = okExternals.element_size (mkArray 0 [4, 5] [20, 4]).dtype *
        ((mkArray 0 [4, 5] [20, 4]).shape.take (mkArray 0 [4, 5] [20, 4]).ndim.toNat).prod ∧
      bfArrayCopy okExternals (some (mkArray 0 [4, 5] [20, 4]))
          (some (mkArray 512 [4, 5] [20, 4])) =
        some ⟨okExternals.bfMemcpy (mkArray 0 [4, 5] [20, 4]).data
                (mkArray 0 [4, 5] [20, 4]).space (mkArray 512 [4, 5] [20, 4]).data
                (mkArray 512 [4, 5] [20, 4]).space (s0 * n0),
              [Call.bfMemcpy (mkArray 0 [4, 5] [20, 4]).data
                (mkArray 0 [4, 5] [20, 4]).space (mkArray 512 [4, 5] [20, 4]).data
                (mkArray 512 [4, 5] [20, 4]).space (s0 * n0)]⟩) ∧
    bfArrayCopy okExternals (some (mkArray 0 [4, 5] [20, 4]))
        (some (mkArray 512 [4, 5] [20, 4])) =
      some ⟨.BF_STATUS_SUCCESS, [Call.bfMemcpy 0 0 512 0 80]⟩ :=
  ⟨⟨by decide, by decide, by decide, by decide, by decide⟩,
   bfArrayCopy_contiguous okExternals (mkArray 0 [4, 5] [20, 4]) (mkArray 512 [4, 5] [20, 4])
     (by decide) (by decide) (by decide) rfl (by decide) (by decide),
   by decide⟩

/-- C7: for every pair of same-dtype rank-2 descriptors of shape `(r, c)`
where the destination is row-padded (`dst.strides = (p, e)` with `p > c*e`,
`e` the element size) and the source is contiguous (`src.strides = (c*e, e)`),
`bfArrayCopy` issues exactly one 2D strided transfer (`bfMemcpy2D`) with row
width `c*e` bytes, row count `r`, destination pitch `p` and source pitch
`c*e`, and no bulk transfer; its status is the primitive's. -/
theorem bfArrayCopy_row_padded (E : Externals) (dst src : BFarray) (r c p : Int)
    (hdn : dst.ndim = 2) (hsn : src.ndim = 2) (hdtype : dst.dtype = src.dtype)
    (hd0 : rd dst.shape 0 = some r) (hd1 : rd dst.shape 1 = some c)
    (hs0 : rd src.shape 0 = some r) (hs1 : rd src.shape 1 = some c)
    (hdp : rd dst.strides 0 = some p)
    (hde : rd dst.strides 1 = some (E.element_size dst.dtype))
    (hsp : rd src.strides 0 = some (c * E.element_size src.dtype))
    (hse : rd src.strides 1 = some (E.element_size src.dtype))
    (hpad : c * E.element_size dst.dtype < p) :
    bfArrayCopy E (some dst) (some src) =
      some ⟨E.bfMemcpy2D dst.data p dst.space src.data (c * E.element_size dst.dtype)
              src.space (c * E.element_size dst.dtype) r,
            [Call.bfMemcpy2D dst.data p dst.space src.data (c * E.element_size dst.dtype)
              src.space (c * E.element_size dst.dtype) r]⟩ := by
  have hes : E.element_size src.dtype = E.element_size dst.dtype := by rw [hdtype]
  rw [hes] at hsp hse
  have hne : ¬ p = E.element_size dst.dtype * c := by
    rw [mul_comm]; exact ne_of_gt hpad
  have tds := take_two _ _ _ hd0 hd1
  have tss := take_two _ _ _ hs0 hs1
  have tdt := take_two _ _ _ hdp hde
  have tst := take_two _ _ _ hsp hse
  have hdd : dims dst = [(r, p), (c, E.element_size dst.dtype)] := by
    simp [dims, hdn, tds, tdt]
  have hds : dims src = [(r, c * E.element_size dst.dtype), (c, E.element_size dst.dtype)] := by
    simp [dims, hsn, tss, tst]
  have hse' : shapes_equal dst src = true := by
    simp [shapes_equal, hdn, hsn, tds, tss]
  have hsqd : squeezeDims (dims dst) = [(r, p), (c, E.element_size dst.dtype)] := by
    simp [hdd, squeezeDims, hne]
  have hsqs : squeezeDims (dims src) = [(r * c, E.element_size dst.dtype)] := by
    simp [hds, squeezeDims, mul_comm]
  have hsq : shapes_equal (squeeze_contiguous_dims dst) (squeeze_contiguous_dims src) = false := by
    simp [shapes_equal, squeeze_contiguous_dims, hsqd, hsqs]
  have hcs : is_contiguous E src = true := by
    simp [is_contiguous, hds, hes, contiguousDims, mul_comm]
  have hcd : is_contiguous E dst = false := by
    simp [is_contiguous, hdd, contiguousDims, hne]
  have hcopy : bfArrayCopy E (some dst) (some src) = copyDispatch E dst src := by
    simp [bfArrayCopy, hse', hdtype, hsq]
  rw [hcopy]
  simp [copyDispatch, hcs, hcd, hdn, hd0, hd1, hdp, hsp, BF_DTYPE_NBYTE, hes]

theorem bfArrayCopy_row_padded_witness :
    ((mkArray 0 [4, 5] [24, 4]).ndim = 2 ∧ (mkArray 512 [4, 5] [20, 4]).ndim = 2 ∧
      rd (mkArray 0 [4, 5] [24, 4]).shape 0 = some 4 ∧
      rd (mkArray 0 [4, 5] [24, 4]).shape 1 = some 5 ∧
      rd (mkArray 512 [4, 5] [20, 4]).shape 0 = some 4 ∧
      rd (mkArray 512 [4, 5] [20, 4]).shape 1 = some 5 ∧
      rd (mkArray 0 [4, 5] [24, 4]).strides 0 = some 24 ∧
      rd (mkArray 0 [4, 5] [24, 4]).strides 1
        = some (okExternals.element_size (mkArray 0 [4, 5] [24, 4]).dtype) ∧
      rd (mkArray 512 [4, 5] [20, 4]).strides 0
        = some (5 * okExternals.element_size (mkArray 512 [4, 5] [20, 4]).dtype) ∧
      rd (mkArray 512 [4, 5] [20, 4]).strides 1
        = some (okExternals.element_size (mkArray 512 [4, 5] [20, 4]).dtype) ∧
      5 * okExternals.element_size (mkArray 0 [4, 5] [24, 4]).dtype < 24) ∧
    bfArrayCopy okExternals (some (mkArray 0 [4, 5] [24, 4])) (some (mkArray 512 [4, 5] [20, 4])) =
      some ⟨.BF_STATUS_SUCCESS, [Call.bfMemcpy2D 0 24 0 512 20 0 20 4]⟩ :=
  ⟨⟨by decide, by decide, by decide, by decide, by decide, by decide, by decide, by decide,
    by decide, by decide, by decide⟩,
   bfArrayCopy_row_padded okExternals (mkArray 0 [4, 5] [24, 4]) (mkArray 512 [4, 5] [20, 4])
     4 5 24 (by decide) (by decide) rfl (by decide) (by decide) (by decide) (by decide)
     (by decide) (by decide) (by decide) (by decide) (by decide)⟩

/-- C8: for every rank-3 descriptor whose stride pattern lets no adjacent
pair of dimensions merge (hence not contiguous, and left at rank 3 by the
layout reduction), `bfArrayMemset` with a value in `0..255` returns
`BF_STATUS_UNSUPPORTED`, and `bfArrayCopy` between it and any shape-equal,
same-dtype descriptor, in either direction, returns `BF_STATUS_UNSUPPORTED`;
no transfer or fill primitive is invoked. -/
theorem rank3_unsupported (E : Externals) (x : BFarray) (n0 n1 n2 s0 s1 s2 : Int)
    (hn : x.ndim = 3)
    (hn0 : rd x.shape 0 = some n0) (hn1 : rd x.shape 1 = some n1)
    (hn2 : rd x.shape 2 = some n2)
    (hs0 : rd x.strides 0 = some s0) (hs1 : rd x.strides 1 = some s1)
    (hs2 : rd x.strides 2 = some s2)
    (h01 : s0 ≠ s1 * n1) (h12 : s1 ≠ s2 * n2) :
    (∀ value : Int, 0 ≤ value → value ≤ 255 →
      bfArrayMemset E (some x) value = some ⟨.BF_STATUS_UNSUPPORTED, []⟩) ∧
    (∀ y : BFarray, shapes_equal x y = true → x.dtype = y.dtype →
      bfArrayCopy E (some x) (some y) = some ⟨.BF_STATUS_UNSUPPORTED, []⟩ ∧
      bfArrayCopy E (some y) (some x) = some ⟨.BF_STATUS_UNSUPPORTED, []⟩) := by
  obtain ⟨hc, hsqn, hsqc⟩ := rank3_layout E x n0 n1 n2 s0 s1 s2 hn hn0 hn1 hn2 hs0 hs1 hs2 h01 h12
  constructor
  · intro value h0 h255
    have hmod : value % 256 = value := Int.emod_eq_of_lt h0 (by omega)
    simp [bfArrayMemset, hmod, memsetDispatch, hsqc, hsqn]
  · intro y hxy hdt
    have hyx := shapes_equal_symm x y hxy
    have hyn : y.ndim = 3 := by rw [← shapes_equal_ndim x y hxy]; exact hn
    constructor
    · simp only [bfArrayCopy, hxy, hdt, ne_eq, not_true_eq_false, if_false, Bool.true_eq_false]
      split_ifs with h
      · exact copyDispatch_unsupported E _ _ (Or.inr hsqc) hsqn
      · exact copyDispatch_unsupported E _ _ (Or.inr hc) hn
    · simp only [bfArrayCopy, hyx, hdt, ne_eq, not_true_eq_false, if_false, Bool.true_eq_false]
      split_ifs with h
      · exact copyDispatch_unsupported E _ _ (Or.inl hsqc)
          (by rw [shapes_equal_ndim _ _ h]; exact hsqn)
      · exact copyDispatch_unsupported E _ _ (Or.inl hc) hyn

theorem rank3_unsupported_witness :
    ((mkArray 0 [2, 3, 4] [100, 20, 4]).ndim = 3 ∧
      rd (mkArray 0 [2, 3, 4] [100, 20, 4]).shape 0 = some 2 ∧
      rd (mkArray 0 [2, 3, 4] [100, 20, 4]).shape 1 = some 3 ∧
      rd (mkArray 0 [2, 3, 4] [100, 20, 4]).shape 2 = some 4 ∧
      rd (mkArray 0 [2, 3, 4] [100, 20, 4]).strides 0 = some 100 ∧
      rd (mkArray 0 [2, 3, 4] [100, 20, 4]).strides 1 = some 20 ∧
      rd (mkArray 0 [2, 3, 4] [100, 20, 4]).strides 2 = some 4 ∧
      (100 : Int) ≠ 20 * 3 ∧ (20 : Int) ≠ 4 * 4) ∧
    ((∀ value : Int, 0 ≤ value → value ≤ 255 →
      bfArrayMemset okExternals (some (mkArray 0 [2, 3, 4] [100, 20, 4])) value
        = some ⟨.BF_STATUS_UNSUPPORTED, []⟩) ∧
    (∀ y : BFarray, shapes_equal (mkArray 0 [2, 3, 4] [100, 20, 4]) y = true →
      (mkArray 0 [2, 3, 4] [100, 20, 4]).dtype = y.dtype →
      bfArrayCopy okExternals (some (mkArray 0 [2, 3, 4] [100, 20, 4])) (some y)
        = some ⟨.BF_STATUS_UNSUPPORTED, []⟩ ∧
      bfArrayCopy okExternals (some y) (some (mkArray 0 [2, 3, 4] [100, 20, 4]))
        = some ⟨.BF_STATUS_UNSUPPORTED, []⟩)) :=
  ⟨⟨by decide, by decide, by decide, by decide, by decide, by decide, by decide, by decide,
    by decide⟩,
   rank3_unsupported okExternals (mkArray 0 [2, 3, 4] [100, 20, 4]) 2 3 4 100 20 4
     (by decide) (by decide) (by decide) (by decide) (by decide) (by decide) (by decide)
     (by decide) (by decide)⟩

/-- C9: round trip.  For every shape, dtype and memory content, if `src` is a
contiguous descriptor and `dst` is the descriptor left by a successful
`bfArrayMalloc` for the same shape and dtype, and the bulk-copy primitive
succeeds, then `bfArrayCopy(dst, src)` returns success with exactly one bulk
transfer, after which the first `element_size * product(shape)` bytes at
`dst.data` equal the bytes that were at `src.data`; when the two byte ranges
do not overlap they also equal the bytes at `src.data` afterwards. -/
theorem bfArrayCopy_round_trip (E : Externals) (d0 src dst : BFarray)
    (out : MallocOutcome) (m : Memory)
    (hd0 : d0.wf) (hsrc : src.wf)
    (hshape : shapes_equal d0 src = true) (hdtype : d0.dtype = src.dtype)
    (hcs : is_contiguous E src = true)
    (halloc : bfArrayMalloc E (some d0) = some out)
    (_hst : out.status = .BF_STATUS_SUCCESS) (harr : out.array = some dst)
    (hok : ∀ n, E.bfMemcpy dst.data dst.space src.data src.space n = .BF_STATUS_SUCCESS) :
    ∃ c, bfArrayCopy E (some dst) (some src) = some ⟨.BF_STATUS_SUCCESS, [c]⟩ ∧
      ∀ k : Int, 0 ≤ k →
        k < E.element_size src.dtype * (src.shape.take src.ndim.toNat).prod →
        c.effect m dst.space ((dst.data : Int) + k) = m src.space ((src.data : Int) + k) ∧
        ((dst.space ≠ src.space ∨
            (dst.data : Int) + E.element_size src.dtype * (src.shape.take src.ndim.toNat).prod
              ≤ (src.data : Int) ∨
            (src.data : Int) + E.element_size src.dtype * (src.shape.take src.ndim.toNat).prod
              ≤ (dst.data : Int)) →
          c.effect m dst.space ((dst.data : Int) + k)
            = c.effect m src.space ((src.data : Int) + k)) := by
  obtain ⟨hwf, hcd, hnd, hsh, hdt, _⟩ := bfArrayMalloc_layout E d0 hd0 out dst halloc harr
  have hse : shapes_equal dst src = true := shapes_equal_of_fields dst d0 src hnd hsh hshape
  have hdt' : dst.dtype = src.dtype := by rw [hdt]; exact hdtype
  have hcore := copy_contiguous_core E dst src hwf hsrc hse hdt' hcd hcs
  rw [hok, shapes_equal_take dst src hse, hdt'] at hcore
  refine ⟨_, hcore, ?_⟩
  intro k hk0 hk1
  have hdstv : Call.effect m (Call.bfMemcpy dst.data dst.space src.data src.space
      (E.element_size src.dtype * (src.shape.take src.ndim.toNat).prod))
      dst.space ((dst.data : Int) + k) = m src.space ((src.data : Int) + k) := by
    have hcond : dst.space = dst.space ∧ (dst.data : Int) ≤ (dst.data : Int) + k ∧
        (dst.data : Int) + k < (dst.data : Int) +
          E.element_size src.dtype * (src.shape.take src.ndim.toNat).prod :=
      ⟨rfl, by omega, by omega⟩
    simp only [Call.effect, bulk_copy, hcond, and_self, if_true]
    congr 1
    omega
  refine ⟨hdstv, ?_⟩
  intro hdisj
  rw [hdstv]
  have hcond : ¬ (src.space = dst.space ∧ (dst.data : Int) ≤ (src.data : Int) + k ∧
      (src.data : Int) + k < (dst.data : Int) +
        E.element_size src.dtype * (src.shape.take src.ndim.toNat).prod) := by
    rintro ⟨h1, h2, h3⟩
    rcases hdisj with h | h | h
    · exact h h1.symm
    · omega
    · omega
  simp only [Call.effect, bulk_copy, hcond, if_false]


theorem bfArrayCopy_round_trip_witness :
    ((mkArray 0 [2, 3] [0, 0]).wf ∧ (mkArray 512 [2, 3] [12, 4]).wf ∧
      shapes_equal (mkArray 0 [2, 3] [0, 0]) (mkArray 512 [2, 3] [12, 4]) = true ∧
      is_contiguous okExternals (mkArray 512 [2, 3] [12, 4]) = true ∧
      bfArrayMalloc okExternals (some (mkArray 0 [2, 3] [0, 0])) =
        some ⟨.BF_STATUS_SUCCESS, [Call.bfMalloc 24 0], some (mkArray 4096 [2, 3] [12, 4])⟩) ∧
    ∃ c, bfArrayCopy okExternals (some (mkArray 4096 [2, 3] [12, 4]))
        (some (mkArray 512 [2, 3] [12, 4])) = some ⟨.BF_STATUS_SUCCESS, [c]⟩ ∧
      ∀ k : Int, 0 ≤ k →
        k < okExternals.element_size (mkArray 512 [2, 3] [12, 4]).dtype *
          ((mkArray 512 [2, 3] [12, 4]).shape.take (mkArray 512 [2, 3] [12, 4]).ndim.toNat).prod →
        c.effect (fun _ _ => 0) (mkArray 4096 [2, 3] [12, 4]).space
            (((mkArray 4096 [2, 3] [12, 4]).data : Int) + k)
          = (fun _ _ => 0 : Memory) (mkArray 512 [2, 3] [12, 4]).space
            (((mkArray 512 [2, 3] [12, 4]).data : Int) + k) ∧
        (((mkArray 4096 [2, 3] [12, 4]).space ≠ (mkArray 512 [2, 3] [12, 4]).space ∨
            ((mkArray 4096 [2, 3] [12, 4]).data : Int) +
              okExternals.element_size (mkArray 512 [2, 3] [12, 4]).dtype *
                ((mkArray 512 [2, 3] [12, 4]).shape.take
                  (mkArray 512 [2, 3] [12, 4]).ndim.toNat).prod
              ≤ ((mkArray 512 [2, 3] [12, 4]).data : Int) ∨
            ((mkArray 512 [2, 3] [12, 4]).data : Int) +
              okExternals.element_size (mkArray 512 [2, 3] [12, 4]).dtype *
                ((mkArray 512 [2, 3] [12, 4]).shape.take
                  (mkArray 512 [2, 3] [12, 4]).ndim.toNat).prod
              ≤ ((mkArray 4096 [2, 3] [12, 4]).data : Int)) →
          c.effect (fun _ _ => 0) (mkArray 4096 [2, 3] [12, 4]).space
              (((mkArray 4096 [2, 3] [12, 4]).data : Int) + k)
            = c.effect (fun _ _ => 0) (mkArray 512 [2, 3] [12, 4]).space
              (((mkArray 512 [2, 3] [12, 4]).data : Int) + k)) :=
  ⟨⟨by decide, by decide, by decide, by decide, by decide⟩,
   bfArrayCopy_round_trip okExternals (mkArray 0 [2, 3] [0, 0]) (mkArray 512 [2, 3] [12, 4])
     (mkArray 4096 [2, 3] [12, 4])
     ⟨.BF_STATUS_SUCCESS, [Call.bfMalloc 24 0], some (mkArray 4096 [2, 3] [12, 4])⟩
     (fun _ _ => 0) (by decide) (by decide) (by decide) rfl (by decide) (by decide) rfl rfl
     (fun _ => rfl)⟩

/-- C10 (amended): layout-reduction transparency for contiguous operands.
If `dst, src` are shape-equal, same-dtype, contiguous descriptors and
`dst2, src2` are contiguous descriptors over the same bytes (same data, space
and dtype, same number of elements) that are shape-equal to each other under
another factoring, then `bfArrayCopy(dst2, src2)` gives the same result as
`bfArrayCopy(dst, src)`: the status of one bulk transfer of
`element_size * product(shape)` bytes from `src.data` to `dst.data`. -/
theorem bfArrayCopy_factoring_transparent (E : Externals) (dst src dst2 src2 : BFarray)
    (hd : dst.wf) (hs : src.wf) (hd2 : dst2.wf) (hs2 : src2.wf)
    (hshape : shapes_equal dst src = true) (hshape2 : shapes_equal dst2 src2 = true)
    (hdtype : dst.dtype = src.dtype)
    (hcd : is_contiguous E dst = true) (hcs : is_contiguous E src = true)
    (hcd2 : is_contiguous E dst2 = true) (hcs2 : is_contiguous E src2 = true)
    (hdd : dst2.data = dst.data ∧ dst2.space = dst.space ∧ dst2.dtype = dst.dtype)
    (hss : src2.data = src.data ∧ src2.space = src.space ∧ src2.dtype = src.dtype)
    (hcount : (dst2.shape.take dst2.ndim.toNat).prod = (dst.shape.take dst.ndim.toNat).prod) :
    bfArrayCopy E (some dst2) (some src2) = bfArrayCopy E (some dst) (some src) ∧
    bfArrayCopy E (some dst) (some src) =
      some ⟨E.bfMemcpy dst.data dst.space src.data src.space
              (E.element_size dst.dtype * (dst.shape.take dst.ndim.toNat).prod),
            [Call.bfMemcpy dst.data dst.space src.data src.space
              (E.element_size dst.dtype * (dst.shape.take dst.ndim.toNat).prod)]⟩ := by
  obtain ⟨hd1, hd2', hd3⟩ := hdd
  obtain ⟨hs1, hs2', hs3⟩ := hss
  have h1 := copy_contiguous_core E dst src hd hs hshape hdtype hcd hcs
  have h2 := copy_contiguous_core E dst2 src2 hd2 hs2 hshape2
    (by rw [hd3, hs3]; exact hdtype) hcd2 hcs2
  rw [hd1, hd2', hd3, hs1, hs2', hcount] at h2
  exact ⟨h2.trans h1.symm, h1⟩

theorem bfArrayCopy_factoring_transparent_witness :
    ((mkArray 0 [2, 3, 4] [48, 16, 4]).wf ∧ (mkArray 512 [2, 3, 4] [48, 16, 4]).wf ∧
      (mkArray 0 [6, 4] [16, 4]).wf ∧ (mkArray 512 [6, 4] [16, 4]).wf ∧
      shapes_equal (mkArray 0 [2, 3, 4] [48, 16, 4]) (mkArray 512 [2, 3, 4] [48, 16, 4]) = true ∧
      shapes_equal (mkArray 0 [6, 4] [16, 4]) (mkArray 512 [6, 4] [16, 4]) = true ∧
      is_contiguous okExternals (mkArray 0 [2, 3, 4] [48, 16, 4]) = true ∧
      is_contiguous okExternals (mkArray 512 [2, 3, 4] [48, 16, 4]) = true ∧
      is_contiguous okExternals (mkArray 0 [6, 4] [16, 4]) = true ∧
      is_contiguous okExternals (mkArray 512 [6, 4] [16, 4]) = true) ∧
    (bfArrayCopy okExternals (some (mkArray 0 [6, 4] [16, 4])) (some (mkArray 512 [6, 4] [16, 4]))
      = bfArrayCopy okExternals (some (mkArray 0 [2, 3, 4] [48, 16, 4]))
          (some (mkArray 512 [2, 3, 4] [48, 16, 4])) ∧
     bfArrayCopy okExternals (some (mkArray 0 [2, 3, 4] [48, 16, 4]))
          (some (mkArray 512 [2, 3, 4] [48, 16, 4])) =
      some ⟨okExternals.bfMemcpy (mkArray 0 [2, 3, 4] [48, 16, 4]).data
              (mkArray 0 [2, 3, 4] [48, 16, 4]).space (mkArray 512 [2, 3, 4] [48, 16, 4]).data
              (mkArray 512 [2, 3, 4] [48, 16, 4]).space
              (okExternals.element_size (mkArray 0 [2, 3, 4] [48, 16, 4]).dtype *
                ((mkArray 0 [2, 3, 4] [48, 16, 4]).shape.take
                  (mkArray 0 [2, 3, 4] [48, 16, 4]).ndim.toNat).prod),
            [Call.bfMemcpy (mkArray 0 [2, 3, 4] [48, 16, 4]).data
              (mkArray 0 [2, 3, 4] [48, 16, 4]).space (mkArray 512 [2, 3, 4] [48, 16, 4]).data
              (mkArray 512 [2, 3, 4] [48, 16, 4]).space
              (okExternals.element_size (mkArray 0 [2, 3, 4] [48, 16, 4]).dtype *
                ((mkArray 0 [2, 3, 4] [48, 16, 4]).shape.take
                  (mkArray 0 [2, 3, 4] [48, 16, 4]).ndim.toNat).prod)]⟩) :=
  ⟨⟨by decide, by decide, by decide, by decide, by decide, by decide, by decide, by decide,
    by decide, by decide⟩,
   bfArrayCopy_factoring_transparent okExternals
     (mkArray 0 [2, 3, 4] [48, 16, 4]) (mkArray 512 [2, 3, 4] [48, 16, 4])
     (mkArray 0 [6, 4] [16, 4]) (mkArray 512 [6, 4] [16, 4])
     (by decide) (by decide) (by decide) (by decide) (by decide) (by decide) rfl
     (by decide) (by decide) (by decide) (by decide)
     ⟨rfl, rfl, rfl⟩ ⟨rfl, rfl, rfl⟩ (by decide)⟩

/-- C10 as stated fails: a copy between a contiguous descriptor of shape
`(2,3,4)` and a contiguous descriptor of shape `(6,4)` over the same number of
bytes is rejected with `BF_STATUS_INVALID_SHAPE` and transfers nothing, while
the direct contiguous copy between two `(6,4)` descriptors succeeds with one
bulk transfer of 96 bytes. -/
theorem bfArrayCopy_refactored_shape_rejected :
    is_contiguous okExternals (mkArray 0 [2, 3, 4] [48, 16, 4]) = true ∧
    is_contiguous okExternals (mkArray 512 [6, 4] [16, 4]) = true ∧
    bfArrayCopy okExternals (some (mkArray 0 [2, 3, 4] [48, 16, 4]))
        (some (mkArray 512 [6, 4] [16, 4]))
      = some ⟨.BF_STATUS_INVALID_SHAPE, []⟩ ∧
    bfArrayCopy okExternals (some (mkArray 0 [6, 4] [16, 4]))
        (some (mkArray 512 [6, 4] [16, 4]))
      = some ⟨.BF_STATUS_SUCCESS, [Call.bfMemcpy 0 0 512 0 96]⟩ := by
  decide

/-- C11: for every descriptor with `ndim ≥ 1` (within the capacity of its
members) and non-negative extents, the layout reducer
`squeeze_contiguous_dims` yields a descriptor of rank at least 1 and at most
the original rank, whose product of extents equals the original's, and whose
row-major sequence of addressed element byte offsets is the original's,
element for element and in the same order. -/
theorem squeeze_contiguous_dims_equivalent (a : BFarray) (hwf : a.wf)
    (hnn : ∀ n ∈ a.shape.take a.ndim.toNat, 0 ≤ n) :
    1 ≤ (squeeze_contiguous_dims a).ndim ∧
    (squeeze_contiguous_dims a).ndim ≤ a.ndim ∧
    ((squeeze_contiguous_dims a).shape.take (squeeze_contiguous_dims a).ndim.toNat).prod
      = (a.shape.take a.ndim.toNat).prod ∧
    elementOffsets (dims (squeeze_contiguous_dims a)) = elementOffsets (dims a) := by
  obtain ⟨n0, s0, rest, _, _, hd, hmap⟩ := dims_head a hwf
  obtain ⟨h1, hS, hT⟩ := hwf
  have hlen : (dims a).length ≤ a.ndim.toNat := by
    simp only [dims, List.length_zip, List.length_take]; omega
  have hle := squeezeDims_length_le (dims a)
  obtain ⟨q2, out, hq, _⟩ := squeezeDims_head (n0, s0) rest
  rw [← hd] at hq
  refine ⟨?_, ?_, ?_, ?_⟩
  · simp [squeeze_contiguous_dims, hq]
  · simp only [squeeze_contiguous_dims]; omega
  · have hfst : (squeeze_contiguous_dims a).shape.take (squeeze_contiguous_dims a).ndim.toNat
        = (squeezeDims (dims a)).map Prod.fst := by
      simp only [squeeze_contiguous_dims, Int.toNat_ofNat]
      apply List.take_of_length_le; simp
    rw [hfst, squeezeDims_prod, hmap]
  · rw [dims_squeeze]
    exact elementOffsets_squeeze _ (dims_fst_nonneg a hnn)

theorem squeeze_contiguous_dims_equivalent_witness :
    ((mkArray 0 [2, 3, 4] [64, 16, 4]).wf ∧
      ∀ n ∈ (mkArray 0 [2, 3, 4] [64, 16, 4]).shape.take
        (mkArray 0 [2, 3, 4] [64, 16, 4]).ndim.toNat, 0 ≤ n) ∧
    (1 ≤ (squeeze_contiguous_dims (mkArray 0 [2, 3, 4] [64, 16, 4])).ndim ∧
    (squeeze_contiguous_dims (mkArray 0 [2, 3, 4] [64, 16, 4])).ndim
      ≤ (mkArray 0 [2, 3, 4] [64, 16, 4]).ndim ∧
    ((squeeze_contiguous_dims (mkArray 0 [2, 3, 4] [64, 16, 4])).shape.take
        (squeeze_contiguous_dims (mkArray 0 [2, 3, 4] [64, 16, 4])).ndim.toNat).prod
      = ((mkArray 0 [2, 3, 4] [64, 16, 4]).shape.take
          (mkArray 0 [2, 3, 4] [64, 16, 4]).ndim.toNat).prod ∧
    elementOffsets (dims (squeeze_contiguous_dims (mkArray 0 [2, 3, 4] [64, 16, 4])))
      = elementOffsets (dims (mkArray 0 [2, 3, 4] [64, 16, 4]))) ∧
    squeeze_contiguous_dims (mkArray 0 [2, 3, 4] [64, 16, 4]) = mkArray 0 [2, 12] [64, 4] :=
  ⟨⟨by decide, by decide⟩,
   squeeze_contiguous_dims_equivalent (mkArray 0 [2, 3, 4] [64, 16, 4]) (by decide) (by decide),
   by decide⟩

/-- C12 at the failing input: destination of shape `(2,2)`, 4-byte elements,
strides `(32,8)` (every other element of a row), source contiguous with
strides `(8,4)`.  `bfArrayCopy` issues `bfMemcpy2D` with row width 8 and
destination pitch 32; that transfer writes destination byte 4, which belongs
to no element the destination addresses, and never writes byte 8, the first
byte of destination element `(0,1)`. -/
theorem bfArrayCopy_inner_stride_ignored :
    shapes_equal (mkArray 0 [2, 2] [32, 8]) (mkArray 512 [2, 2] [8, 4]) = true ∧
    bfArrayCopy okExternals (some (mkArray 0 [2, 2] [32, 8])) (some (mkArray 512 [2, 2] [8, 4]))
      = some ⟨.BF_STATUS_SUCCESS, [Call.bfMemcpy2D 0 32 0 512 8 0 8 2]⟩ ∧
    (4, 4) ∈ (Call.bfMemcpy2D 0 32 0 512 8 0 8 2).transferPlan ∧
    4 ∉ elementBytes (okExternals.element_size 0) (dims (mkArray 0 [2, 2] [32, 8])) ∧
    8 ∈ elementBytes (okExternals.element_size 0) (dims (mkArray 0 [2, 2] [32, 8])) ∧
    8 ∉ ((Call.bfMemcpy2D 0 32 0 512 8 0 8 2).transferPlan.map Prod.fst) := by
  decide

/-- C13 (amended): when `bfArrayMalloc` fails on a null descriptor nothing is
touched and the allocator is not called; when it fails because the allocator
reports an error, `ndim`, `shape`, `dtype` and `space` are unchanged and
`data` is what the allocator left in it (unchanged if the allocator leaves
`*ptr` alone on failure), but `strides` already hold the row-major strides
derived from `shape` and `dtype`. -/
theorem bfArrayMalloc_on_failure (E : Externals) (array : BFarray) (hwf : array.wf) :
    bfArrayMalloc E none = some ⟨.BF_STATUS_INVALID_POINTER, [], none⟩ ∧
    ∃ out a, bfArrayMalloc E (some array) = some out ∧ out.array = some a ∧
      (out.status ≠ .BF_STATUS_SUCCESS →
        a.ndim = array.ndim ∧ a.shape = array.shape ∧ a.dtype = array.dtype ∧
        a.space = array.space ∧
        ((∀ old n sp, (E.bfMalloc old n sp).1 ≠ .BF_STATUS_SUCCESS →
            (E.bfMalloc old n sp).2 = old) → a.data = array.data) ∧
        is_contiguous E a = true) := by
  refine ⟨rfl, ?_⟩
  obtain ⟨r, n, _, _, _, _, s0, n0, _, _, hrun⟩ := bfArrayMalloc_run E array hwf
  refine ⟨_, _, hrun, rfl, ?_⟩
  intro herr
  obtain ⟨_, hc, _, _, _, _⟩ := bfArrayMalloc_layout E array hwf _ _ hrun rfl
  refine ⟨rfl, rfl, rfl, rfl, ?_, hc⟩
  intro hkeep
  exact hkeep _ _ _ herr

theorem bfArrayMalloc_on_failure_witness :
    (mkArray 7 [2, 3, 4] [0, 0, 0]).wf ∧
    (bfArrayMalloc rejectingExternals none = some ⟨.BF_STATUS_INVALID_POINTER, [], none⟩ ∧
    ∃ out a, bfArrayMalloc rejectingExternals (some (mkArray 7 [2, 3, 4] [0, 0, 0])) = some out ∧
      out.array = some a ∧
      (out.status ≠ .BF_STATUS_SUCCESS →
        a.ndim = (mkArray 7 [2, 3, 4] [0, 0, 0]).ndim ∧
        a.shape = (mkArray 7 [2, 3, 4] [0, 0, 0]).shape ∧
        a.dtype = (mkArray 7 [2, 3, 4] [0, 0, 0]).dtype ∧
        a.space = (mkArray 7 [2, 3, 4] [0, 0, 0]).space ∧
        ((∀ old n sp, (rejectingExternals.bfMalloc old n sp).1 ≠ .BF_STATUS_SUCCESS →
            (rejectingExternals.bfMalloc old n sp).2 = old) →
          a.data = (mkArray 7 [2, 3, 4] [0, 0, 0]).data) ∧
        is_contiguous rejectingExternals a = true)) :=
  ⟨by decide, bfArrayMalloc_on_failure rejectingExternals (mkArray 7 [2, 3, 4] [0, 0, 0])
    (by decide)⟩

/-- C13 as stated fails: with an allocator that reports an error and leaves
`*ptr` alone, `bfArrayMalloc` returns that error, yet the descriptor's strides
`(0,0,0)` have been overwritten with `(48,16,4)`. -/
theorem bfArrayMalloc_failure_strides_written :
    bfArrayMalloc rejectingExternals (some (mkArray 7 [2, 3, 4] [0, 0, 0])) =
      some ⟨.BF_STATUS_OTHER 1, [Call.bfMalloc 96 0], some (mkArray 7 [2, 3, 4] [48, 16, 4])⟩ ∧
    BFstatus.BF_STATUS_OTHER 1 ≠ .BF_STATUS_SUCCESS ∧
    (mkArray 7 [2, 3, 4] [48, 16, 4]).strides ≠ (mkArray 7 [2, 3, 4] [0, 0, 0]).strides := by
  decide

/-- C14 (amended): `bfArrayMalloc` called with an absent descriptor fails with
`BF_STATUS_INVALID_POINTER`, without calling the allocator. -/
theorem bfArrayMalloc_null (E : Externals) :
    bfArrayMalloc E none = some ⟨.BF_STATUS_INVALID_POINTER, [], none⟩ :=
  rfl

/-- C14 as stated fails: for an absent descriptor the status is
`BF_STATUS_INVALID_POINTER`, not `BF_STATUS_INVALID_ARGUMENT`. -/
theorem bfArrayMalloc_null_not_invalid_argument :
    (bfArrayMalloc okExternals none).map MallocOutcome.status
      = some BFstatus.BF_STATUS_INVALID_POINTER ∧
    (bfArrayMalloc okExternals none).map MallocOutcome.status
      ≠ some BFstatus.BF_STATUS_INVALID_ARGUMENT := by
  decide

/-- C15: for every pair of shape-equal, same-dtype descriptors, let `(d, s)` be
the independently reduced pair when the two reduced descriptors are
shape-equal, and the caller's unreduced pair otherwise.  `bfArrayCopy` runs
the contiguity test on `s` and `d`, the rank test on `d.ndim`, and takes every
transfer parameter from that pair: a bulk transfer of
`d.strides[0] * d.shape[0]` bytes when both are contiguous; otherwise, for
rank 1, a strided transfer of `d.shape[0]` rows one element wide, and for
rank 2, of `d.shape[0]` rows `d.shape[1]` elements wide, with pitches
`d.strides[0]` and `s.strides[0]`; otherwise `BF_STATUS_UNSUPPORTED`. -/
theorem bfArrayCopy_operand_choice (E : Externals) (dst src d s : BFarray)
    (hshape : shapes_equal dst src = true) (hdtype : dst.dtype = src.dtype)
    (hsel :
      (shapes_equal (squeeze_contiguous_dims dst) (squeeze_contiguous_dims src) = true ∧
        d = squeeze_contiguous_dims dst ∧ s = squeeze_contiguous_dims src) ∨
      (shapes_equal (squeeze_contiguous_dims dst) (squeeze_contiguous_dims src) = false ∧
        d = dst ∧ s = src)) :
    (is_contiguous E s = true → is_contiguous E d = true →
      ∀ s0 n0, rd d.strides 0 = some s0 → rd d.shape 0 = some n0 →
        bfArrayCopy E (some dst) (some src) =
          some ⟨E.bfMemcpy dst.data dst.space src.data src.space (s0 * n0),
                [Call.bfMemcpy dst.data dst.space src.data src.space (s0 * n0)]⟩) ∧
    ((is_contiguous E s = false ∨ is_contiguous E d = false) → d.ndim = 1 →
      ∀ dp sp n, rd d.strides 0 = some dp → rd s.strides 0 = some sp →
        rd d.shape 0 = some n →
        bfArrayCopy E (some dst) (some src) =
          some ⟨E.bfMemcpy2D dst.data dp dst.space src.data sp src.space
                  (E.element_size src.dtype) n,
                [Call.bfMemcpy2D dst.data dp dst.space src.data sp src.space
                  (E.element_size src.dtype) n]⟩) ∧
    ((is_contiguous E s = false ∨ is_contiguous E d = false) → d.ndim = 2 →
      ∀ dp sp n c, rd d.strides 0 = some dp → rd s.strides 0 = some sp →
        rd d.shape 0 = some n → rd d.shape 1 = some c →
        bfArrayCopy E (some dst) (some src) =
          some ⟨E.bfMemcpy2D dst.data dp dst.space src.data sp src.space
                  (c * E.element_size src.dtype) n,
                [Call.bfMemcpy2D dst.data dp dst.space src.data sp src.space
                  (c * E.element_size src.dtype) n]⟩) ∧
    ((is_contiguous E s = false ∨ is_contiguous E d = false) → d.ndim ≠ 1 → d.ndim ≠ 2 →
      bfArrayCopy E (some dst) (some src) = some ⟨.BF_STATUS_UNSUPPORTED, []⟩) := by
  have hops : copyOperands dst src = (d, s) := by
    rcases hsel with ⟨h, hd, hs⟩ | ⟨h, hd, hs⟩
    · rw [hd, hs]; simp [copyOperands, h]
    · rw [hd, hs]; simp [copyOperands, h]
  have hrun := bfArrayCopy_eq_dispatch E dst src hshape hdtype
  obtain ⟨f1, f2, _, f4, f5, f6⟩ := copyOperands_fields dst src
  rw [hops] at hrun f1 f2 f4 f5 f6
  simp only at hrun f1 f2 f4 f5 f6
  rw [hrun, ← f1, ← f2, ← f4, ← f5, ← f6]
  refine ⟨?_, ?_, ?_, ?_⟩
  · intro hcs hcd s0 n0 hs0 hn0
    simp [copyDispatch, hcs, hcd, hs0, hn0]
  · intro hnc hrank dp sp n hdp hsp hn
    have hc : (is_contiguous E s && is_contiguous E d) = false := by
      rcases hnc with h | h <;> simp [h]
    simp [copyDispatch, hc, hrank, hdp, hsp, hn, BF_DTYPE_NBYTE]
  · intro hnc hrank dp sp n c hdp hsp hn hcw
    have hc : (is_contiguous E s && is_contiguous E d) = false := by
      rcases hnc with h | h <;> simp [h]
    simp [copyDispatch, hc, hrank, hdp, hsp, hn, hcw, BF_DTYPE_NBYTE]
  · intro hnc h1 h2
    have hc : (is_contiguous E s && is_contiguous E d) = false := by
      rcases hnc with h | h <;> simp [h]
    simp [copyDispatch, hc, h1, h2]

theorem bfArrayCopy_operand_choice_witness :
    (shapes_equal (mkArray 0 [2, 3, 4] [96, 16, 4]) (mkArray 512 [2, 3, 4] [64, 16, 4]) = true ∧
      shapes_equal (squeeze_contiguous_dims (mkArray 0 [2, 3, 4] [96, 16, 4]))
        (squeeze_contiguous_dims (mkArray 512 [2, 3, 4] [64, 16, 4])) = true ∧
      mkArray 0 [2, 12] [96, 4] = squeeze_contiguous_dims (mkArray 0 [2, 3, 4] [96, 16, 4]) ∧
      mkArray 512 [2, 12] [64, 4] = squeeze_contiguous_dims (mkArray 512 [2, 3, 4] [64, 16, 4]) ∧
      is_contiguous okExternals (mkArray 0 [2, 12] [96, 4]) = false ∧
      (mkArray 0 [2, 12] [96, 4]).ndim = 2) ∧
    bfArrayCopy okExternals (some (mkArray 0 [2, 3, 4] [96, 16, 4]))
        (some (mkArray 512 [2, 3, 4] [64, 16, 4]))
      = some ⟨.BF_STATUS_SUCCESS, [Call.bfMemcpy2D 0 96 0 512 64 0 48 2]⟩ ∧
    (shapes_equal (mkArray 0 [4, 5] [24, 4]) (mkArray 512 [4, 5] [20, 4]) = true ∧
      shapes_equal (squeeze_contiguous_dims (mkArray 0 [4, 5] [24, 4]))
        (squeeze_contiguous_dims (mkArray 512 [4, 5] [20, 4])) = false ∧
      squeeze_contiguous_dims (mkArray 512 [4, 5] [20, 4]) = mkArray 512 [20] [4] ∧
      is_contiguous okExternals (mkArray 0 [4, 5] [24, 4]) = false ∧
      (mkArray 0 [4, 5] [24, 4]).ndim = 2) ∧
    bfArrayCopy okExternals (some (mkArray 0 [4, 5] [24, 4])) (some (mkArray 512 [4, 5] [20, 4]))
      = some ⟨.BF_STATUS_SUCCESS, [Call.bfMemcpy2D 0 24 0 512 20 0 20 4]⟩ :=
  ⟨⟨by decide, by decide, by decide, by decide, by decide, by decide⟩,
   (bfArrayCopy_operand_choice okExternals (mkArray 0 [2, 3, 4] [96, 16, 4])
      (mkArray 512 [2, 3, 4] [64, 16, 4]) (mkArray 0 [2, 12] [96, 4])
      (mkArray 512 [2, 12] [64, 4]) (by decide) rfl
      (Or.inl ⟨by decide, by decide, by decide⟩)).2.2.1
      (Or.inr (by decide)) (by decide) 96 64 2 12 (by decide) (by decide) (by decide)
      (by decide),
   ⟨by decide, by decide, by decide, by decide, by decide⟩,
   (bfArrayCopy_operand_choice okExternals (mkArray 0 [4, 5] [24, 4])
      (mkArray 512 [4, 5] [20, 4]) (mkArray 0 [4, 5] [24, 4]) (mkArray 512 [4, 5] [20, 4])
      (by decide) rfl (Or.inr ⟨by decide, rfl, rfl⟩)).2.2.1
      (Or.inr (by decide)) (by decide) 24 20 4 5 (by decide) (by decide) (by decide)
      (by decide)⟩

/-- C16: for every pair of shape-equal, same-dtype descriptors whose rank
after the reduction step is 1 and which are not both contiguous,
`bfArrayCopy` issues exactly one 2D strided transfer with row width
`element_size(dtype)` (one element), row count `shape[0]`, destination pitch
`dst.strides[0]` and source pitch `src.strides[0]` (of the operands after the
reduction step), so byte `k` of element `i` goes from source offset
`i*src.strides[0] + k` to destination offset `i*dst.strides[0] + k`. -/
theorem bfArrayCopy_rank1 (E : Externals) (dst src : BFarray)
    (hd : dst.wf) (hs : src.wf)
    (hshape : shapes_equal dst src = true) (hdtype : dst.dtype = src.dtype)
    (hrank : (copyOperands dst src).1.ndim = 1)
    (hnc : (is_contiguous E (copyOperands dst src).2 &&
      is_contiguous E (copyOperands dst src).1) = false) :
    ∃ n dp sp, rd (copyOperands dst src).1.shape 0 = some n ∧
      rd (copyOperands dst src).1.strides 0 = some dp ∧
      rd (copyOperands dst src).2.strides 0 = some sp ∧
      bfArrayCopy E (some dst) (some src) =
        some ⟨E.bfMemcpy2D dst.data dp dst.space src.data sp src.space
                (E.element_size dst.dtype) n,
              [Call.bfMemcpy2D dst.data dp dst.space src.data sp src.space
                (E.element_size dst.dtype) n]⟩ ∧
      ∀ i k : Int, 0 ≤ i → i < n → 0 ≤ k → k < E.element_size dst.dtype →
        (i * dp + k, i * sp + k) ∈
          (Call.bfMemcpy2D dst.data dp dst.space src.data sp src.space
            (E.element_size dst.dtype) n).transferPlan := by
  obtain ⟨hw1, hw2, _⟩ := copyOperands_wf dst src hd hs (by omega)
  obtain ⟨n, dp, _, hn, hdp, _, _⟩ := dims_head _ hw1
  obtain ⟨_, sp, _, _, hsp, _, _⟩ := dims_head _ hw2
  obtain ⟨f1, f2, _, f4, f5, f6⟩ := copyOperands_fields dst src
  have hdis := copyDispatch_rank1 E _ _ n dp sp hrank hnc hn hdp hsp
  rw [f1, f2, f4, f5, f6, ← hdtype] at hdis
  refine ⟨n, dp, sp, hn, hdp, hsp, ?_, ?_⟩
  · rw [bfArrayCopy_eq_dispatch E dst src hshape hdtype]; exact hdis
  · intro i k hi0 hi hk0 hk
    exact mem_transferPlan_2D _ _ _ _ _ _ _ _ _ _ hi0 hi hk0 hk

theorem bfArrayCopy_rank1_witness :
    ((mkArray 0 [5] [8]).wf ∧ (mkArray 512 [5] [4]).wf ∧
      shapes_equal (mkArray 0 [5] [8]) (mkArray 512 [5] [4]) = true ∧
      (copyOperands (mkArray 0 [5] [8]) (mkArray 512 [5] [4])).1.ndim = 1 ∧
      (is_contiguous okExternals (copyOperands (mkArray 0 [5] [8]) (mkArray 512 [5] [4])).2 &&
        is_contiguous okExternals (copyOperands (mkArray 0 [5] [8]) (mkArray 512 [5] [4])).1)
        = false) ∧
    (∃ n dp sp, rd (copyOperands (mkArray 0 [5] [8]) (mkArray 512 [5] [4])).1.shape 0 = some n ∧
      rd (copyOperands (mkArray 0 [5] [8]) (mkArray 512 [5] [4])).1.strides 0 = some dp ∧
      rd (copyOperands (mkArray 0 [5] [8]) (mkArray 512 [5] [4])).2.strides 0 = some sp ∧
      bfArrayCopy okExternals (some (mkArray 0 [5] [8])) (some (mkArray 512 [5] [4])) =
        some ⟨okExternals.bfMemcpy2D (mkArray 0 [5] [8]).data dp (mkArray 0 [5] [8]).space
                (mkArray 512 [5] [4]).data sp (mkArray 512 [5] [4]).space
                (okExternals.element_size (mkArray 0 [5] [8]).dtype) n,
              [Call.bfMemcpy2D (mkArray 0 [5] [8]).data dp (mkArray 0 [5] [8]).space
                (mkArray 512 [5] [4]).data sp (mkArray 512 [5] [4]).space
                (okExternals.element_size (mkArray 0 [5] [8]).dtype) n]⟩ ∧
      ∀ i k : Int, 0 ≤ i → i < n → 0 ≤ k →
        k < okExternals.element_size (mkArray 0 [5] [8]).dtype →
        (i * dp + k, i * sp + k) ∈
          (Call.bfMemcpy2D (mkArray 0 [5] [8]).data dp (mkArray 0 [5] [8]).space
            (mkArray 512 [5] [4]).data sp (mkArray 512 [5] [4]).space
            (okExternals.element_size (mkArray 0 [5] [8]).dtype) n).transferPlan) ∧
    bfArrayCopy okExternals (some (mkArray 0 [5] [8])) (some (mkArray 512 [5] [4])) =
      some ⟨.BF_STATUS_SUCCESS, [Call.bfMemcpy2D 0 8 0 512 4 0 4 5]⟩ :=
  ⟨⟨by decide, by decide, by decide, by decide, by decide⟩,
   bfArrayCopy_rank1 okExternals (mkArray 0 [5] [8]) (mkArray 512 [5] [4])
     (by decide) (by decide) (by decide) rfl (by decide) (by decide),
   by decide⟩

/-- C18: fill is copy's dispatch specialised to one operand.  For every present
descriptor `d` and every value in `0..255`, `bfArrayCopy(d, d)` and
`bfArrayMemset(d, value)` are both the dispatch on the reduced descriptor, and
they take the same branch with the same parameters: a bulk transfer of `n`
bytes exactly when a bulk fill of `n` bytes, a 2D strided transfer with pitch
`p`, row width `w` and row count `r` exactly when a 2D strided fill with the
same `p`, `w`, `r`, and `BF_STATUS_UNSUPPORTED` exactly when
`BF_STATUS_UNSUPPORTED`. -/
theorem fill_matches_copy (E : Externals) (d : BFarray) (value : Int)
    (h0 : 0 ≤ value) (h255 : value ≤ 255) :
    bfArrayCopy E (some d) (some d) =
      copyDispatch E (squeeze_contiguous_dims d) (squeeze_contiguous_dims d) ∧
    bfArrayMemset E (some d) value = memsetDispatch E (squeeze_contiguous_dims d) value ∧
    (∀ n, (∃ st, bfArrayCopy E (some d) (some d) =
          some ⟨st, [Call.bfMemcpy d.data d.space d.data d.space n]⟩) ↔
        (∃ st, bfArrayMemset E (some d) value =
          some ⟨st, [Call.bfMemset d.data d.space value n]⟩)) ∧
    (∀ p w r, (∃ st, bfArrayCopy E (some d) (some d) =
          some ⟨st, [Call.bfMemcpy2D d.data p d.space d.data p d.space w r]⟩) ↔
        (∃ st, bfArrayMemset E (some d) value =
          some ⟨st, [Call.bfMemset2D d.data p d.space value w r]⟩)) ∧
    (bfArrayCopy E (some d) (some d) = some ⟨.BF_STATUS_UNSUPPORTED, []⟩ ↔
      bfArrayMemset E (some d) value = some ⟨.BF_STATUS_UNSUPPORTED, []⟩) ∧
    (bfArrayCopy E (some d) (some d) = none ↔ bfArrayMemset E (some d) value = none) := by
  have hcopy := bfArrayCopy_self E d
  have hfill := bfArrayMemset_in_range E d value h0 h255
  obtain ⟨c1, c2, c3, c4⟩ := dispatch_correspondence E (squeeze_contiguous_dims d) value
  rw [hcopy, hfill]
  exact ⟨rfl, rfl, c1, c2, c3, c4⟩

theorem fill_matches_copy_witness :
    ((0 : Int) ≤ 7 ∧ (7 : Int) ≤ 255) ∧
    (bfArrayCopy okExternals (some (mkArray 64 [4, 5] [24, 4])) (some (mkArray 64 [4, 5] [24, 4]))
        = some ⟨.BF_STATUS_SUCCESS, [Call.bfMemcpy2D 64 24 0 64 24 0 20 4]⟩ ∧
      bfArrayMemset okExternals (some (mkArray 64 [4, 5] [24, 4])) 7
        = some ⟨.BF_STATUS_SUCCESS, [Call.bfMemset2D 64 24 0 7 20 4]⟩) ∧
    (bfArrayCopy okExternals (some (mkArray 64 [4, 5] [24, 4])) (some (mkArray 64 [4, 5] [24, 4]))
        = some ⟨.BF_STATUS_UNSUPPORTED, []⟩ ↔
      bfArrayMemset okExternals (some (mkArray 64 [4, 5] [24, 4])) 7
        = some ⟨.BF_STATUS_UNSUPPORTED, []⟩) :=
  ⟨⟨by decide, by decide⟩, ⟨by decide, by decide⟩,
   (fill_matches_copy okExternals (mkArray 64 [4, 5] [24, 4]) 7 (by decide) (by decide)).2.2.2.2.1⟩

/-- C19: there are shape-equal, same-dtype rank-3 descriptors, each of which
reduces on its own to rank at most 2, for which `bfArrayCopy` returns
`BF_STATUS_UNSUPPORTED` because the two reductions disagree in shape and the
rank-3 originals are used: shape `(2,3,4)`, element size 4, `dst` contiguous
with strides `(48,16,4)` (reduces to shape `(24)`), `src` with strides
`(64,16,4)` (reduces to shape `(2,12)`, strides `(64,4)`). -/
theorem bfArrayCopy_unsupported_despite_reducible :
    ∃ dst src : BFarray,
      dst.ndim = 3 ∧ src.ndim = 3 ∧ shapes_equal dst src = true ∧ dst.dtype = src.dtype ∧
      okExternals.element_size dst.dtype = 4 ∧
      (squeeze_contiguous_dims dst).ndim ≤ 2 ∧ (squeeze_contiguous_dims src).ndim ≤ 2 ∧
      dims (squeeze_contiguous_dims dst) = [(24, 4)] ∧
      dims (squeeze_contiguous_dims src) = [(2, 64), (12, 4)] ∧
      shapes_equal (squeeze_contiguous_dims dst) (squeeze_contiguous_dims src) = false ∧
      copyOperands dst src = (dst, src) ∧
      bfArrayCopy okExternals (some dst) (some src) = some ⟨.BF_STATUS_UNSUPPORTED, []⟩ :=
  ⟨mkArray 0 [2, 3, 4] [48, 16, 4], mkArray 512 [2, 3, 4] [64, 16, 4], by decide⟩

/-- C20: the run of `bfArrayMalloc` with its member accesses logged has the
outcome of `bfArrayMalloc`.  For every descriptor with `1 ≤ ndim ≤ capacity`
the run returns, its loop body is entered exactly `ndim-1` times, writing
`strides[d]` for `d = ndim-2` down to `0` after the first write to
`strides[ndim-1]`, and every index it uses to read `shape[]` or to read or
write `strides[]` lies in `[0, ndim-1]`, inside the members.  For `ndim = 0`
the first write targets `strides[-1]`, outside the member: it is the run's
only access and the run is undefined from there. -/
theorem bfArrayMalloc_member_accesses (E : Externals) (array : BFarray) :
    (bfArrayMallocTraced E (some array)).outcome = bfArrayMalloc E (some array) ∧
    (array.wf →
      bfArrayMalloc E (some array) ≠ none ∧
      (bfArrayMallocTraced E (some array)).iterations = (array.ndim - 1).toNat ∧
      (((array.ndim - 1).toNat : Nat) : Int) = array.ndim - 1 ∧
      (bfArrayMallocTraced E (some array)).accesses = bfArrayMallocAccesses array.ndim ∧
      (bfArrayMallocTraced E (some array)).accesses.filterMap Access.written
        = (array.ndim - 1) ::
            ((List.range (array.ndim - 1).toNat).reverse.map fun (j : Nat) => (j : Int)) ∧
      ∀ acc ∈ (bfArrayMallocTraced E (some array)).accesses,
        0 ≤ acc.index ∧ acc.index ≤ array.ndim - 1 ∧
        acc.inBounds array.shape.length array.strides.length = true) ∧
    (array.ndim = 0 →
      (bfArrayMallocTraced E (some array)).accesses = [.writeStrides (-1)] ∧
      (bfArrayMallocTraced E (some array)).iterations = 0 ∧
      Access.inBounds array.shape.length array.strides.length (.writeStrides (-1)) = false ∧
      bfArrayMalloc E (some array) = none) := by
  refine ⟨bfArrayMallocTraced_outcome E (some array), ?_, ?_⟩
  · intro hwf
    have hdef : bfArrayMalloc E (some array) ≠ none := by
      obtain ⟨_, _, _, _, _, _, _, _, _, _, hrun⟩ := bfArrayMalloc_run E array hwf
      rw [hrun]; simp
    obtain ⟨hacc, hit⟩ := bfArrayMallocTraced_wf E array hwf
    obtain ⟨h1, _, _⟩ := hwf
    refine ⟨hdef, hit, by omega, hacc, ?_, ?_⟩
    · rw [hacc]
      simp only [bfArrayMallocAccesses, List.filterMap_append, strideLoopAccesses_written]
      simp [List.filterMap_cons, Access.written]
    · rw [hacc]
      intro acc hmem
      refine ⟨?_, ?_, (bfArrayMalloc_defined_iff E array).1 hdef acc hmem⟩
      · simp only [bfArrayMallocAccesses, List.mem_append, List.mem_cons, List.mem_singleton,
          List.not_mem_nil, or_false] at hmem
        rcases hmem with (hmem | hmem) | hmem | hmem
        · subst hmem; simp only [Access.index]; omega
        · exact (strideLoopAccesses_index _ acc hmem).1
        · subst hmem; simp only [Access.index]; omega
        · subst hmem; simp only [Access.index]; omega
      · simp only [bfArrayMallocAccesses, List.mem_append, List.mem_cons, List.mem_singleton,
          List.not_mem_nil, or_false] at hmem
        rcases hmem with (hmem | hmem) | hmem | hmem
        · subst hmem; simp only [Access.index]; omega
        · have := (strideLoopAccesses_index _ acc hmem).2
          omega
        · subst hmem; simp only [Access.index]; omega
        · subst hmem; simp only [Access.index]; omega
  · intro h0
    have hw : wr array.strides (array.ndim - 1) (get_dtype_nbyte E array.dtype) = none := by
      simp [wr, h0]
    have htr : bfArrayMallocTraced E (some array)
        = ⟨[.writeStrides (array.ndim - 1)], 0, none⟩ := by
      simp only [bfArrayMallocTraced, hw]
    have hout := bfArrayMallocTraced_outcome E (some array)
    rw [htr] at hout
    rw [htr, h0]
    refine ⟨rfl, rfl, ?_, hout.symm⟩
    simp [Access.inBounds]

theorem bfArrayMalloc_member_accesses_witness :
    ((mkArray 0 [2, 3, 4] [0, 0, 0]).wf ∧ (⟨0, 0, 0, 0, [0], [0]⟩ : BFarray).ndim = 0) ∧
    ((bfArrayMallocTraced okExternals (some (mkArray 0 [2, 3, 4] [0, 0, 0]))).iterations = 2 ∧
      (bfArrayMallocTraced okExternals (some (mkArray 0 [2, 3, 4] [0, 0, 0]))).accesses
        = [.writeStrides 2,
           .readStrides 2, .readShape 2, .writeStrides 1,
           .readStrides 1, .readShape 1, .writeStrides 0,
           .readStrides 0, .readShape 0] ∧
      (bfArrayMallocTraced okExternals (some (mkArray 0 [2, 3, 4] [0, 0, 0]))).accesses.filterMap
          Access.written = [2, 1, 0]) ∧
    ((bfArrayMallocTraced okExternals (some ⟨0, 0, 0, 0, [0], [0]⟩)).accesses
        = [.writeStrides (-1)] ∧
      bfArrayMalloc okExternals (some ⟨0, 0, 0, 0, [0], [0]⟩) = none) ∧
    (bfArrayMallocTraced okExternals (some (mkArray 0 [2, 3, 4] [0, 0, 0]))).outcome
        = bfArrayMalloc okExternals (some (mkArray 0 [2, 3, 4] [0, 0, 0])) ∧
    bfArrayMalloc okExternals (some (mkArray 0 [2, 3, 4] [0, 0, 0]))
      = some ⟨.BF_STATUS_SUCCESS, [Call.bfMalloc 96 0],
          some (mkArray 4096 [2, 3, 4] [48, 16, 4])⟩ :=
  ⟨⟨by decide, by decide⟩,
   ⟨((bfArrayMalloc_member_accesses okExternals (mkArray 0 [2, 3, 4] [0, 0, 0])).2.1
        (by decide)).2.1,
    ((bfArrayMalloc_member_accesses okExternals (mkArray 0 [2, 3, 4] [0, 0, 0])).2.1
        (by decide)).2.2.2.1,
    ((bfArrayMalloc_member_accesses okExternals (mkArray 0 [2, 3, 4] [0, 0, 0])).2.1
        (by decide)).2.2.2.2.1⟩,
   ⟨((bfArrayMalloc_member_accesses okExternals ⟨0, 0, 0, 0, [0], [0]⟩).2.2 (by decide)).1,
    ((bfArrayMalloc_member_accesses okExternals ⟨0, 0, 0, 0, [0], [0]⟩).2.2
        (by decide)).2.2.2⟩,
   (bfArrayMalloc_member_accesses okExternals (mkArray 0 [2, 3, 4] [0, 0, 0])).1,
   by decide⟩

end Bifrost
